import Mathlib

set_option maxRecDepth 10000

namespace Syslog

/-- Go strings and byte slices are byte sequences; we model both as lists of byte
values (0..255). -/
abbrev Bytes := List Nat

/-- UTF-8 encoding of one code point, as Go encodes runes in string literals. -/
def utf8EncodeChar (c : Nat) : Bytes :=
  if c < 0x80 then [c]
  else if c < 0x800 then [0xC0 + c / 0x40, 0x80 + c % 0x40]
  else if c < 0x10000 then [0xE0 + c / 0x1000, 0x80 + c / 0x40 % 0x40, 0x80 + c % 0x40]
  else [0xF0 + c / 0x40000, 0x80 + c / 0x1000 % 0x40, 0x80 + c / 0x40 % 0x40, 0x80 + c % 0x40]

/-- The bytes of a Lean string literal, UTF-8 encoded exactly as the corresponding
Go string literal. -/
def bstr (s : String) : Bytes :=
  s.data.foldr (fun c r => utf8EncodeChar c.toNat ++ r) []

/-- Go s[i:] (callers established i ≤ len s, or the surrounding function models the
panic explicitly). -/
def sliceFrom (s : Bytes) (i : Int) : Bytes := s.drop i.toNat

/-- Go s[:i]. -/
def sliceTo (s : Bytes) (i : Int) : Bytes := s.take i.toNat

/-- Go s[a:b]. -/
def slice (s : Bytes) (a b : Int) : Bytes := (s.take b.toNat).drop a.toNat

/-- Go strings.IndexByte / bytes.IndexByte: index of the first occurrence of c,
or -1 when absent. -/
def indexByte (s : Bytes) (c : Nat) : Int :=
  match s with
  | [] => -1
  | a :: t =>
    if a = c then 0
    else
      let r := indexByte t c
      if r < 0 then -1 else r + 1

/-- Worker for strings.HasPrefix, recursing on the sought leading part. -/
def startsWithAux : Bytes → Bytes → Bool
  | [], _ => true
  | _ :: _, [] => false
  | b :: p', a :: s' => a == b && startsWithAux p' s'

/-- Go strings.HasPrefix (argument order: subject first). -/
def startsWith (s p : Bytes) : Bool := startsWithAux p s

/-- Go strings.HasSuffix with a one-byte suffix. -/
def endsWithByte (s : Bytes) (c : Nat) : Bool := s.getLast? == some c

/-- isNulCrLf from server.go. -/
def isNulCrLf (r : Nat) : Bool := r == 0 || r == 13 || r == 10

/-- bytes.TrimRightFunc(pkt, isNulCrLf). NUL, CR and LF are one-byte runes and
never occur inside a longer UTF-8 sequence, so trimming trailing runes satisfying
isNulCrLf is exactly trimming trailing such bytes. -/
def trimRightNulCrLf (s : Bytes) : Bytes := (s.reverse.dropWhile isNulCrLf).reverse

/-- One step of UTF-8 decoding with the semantics of Go's unicode/utf8.DecodeRune:
the first rune and its width; invalid encodings give U+FFFD with width 1, empty
input width 0. -/
def utf8DecodeFirst : Bytes → Nat × Nat
  | [] => (0xFFFD, 0)
  | b0 :: rest =>
    if b0 < 0x80 then (b0, 1)
    else if b0 < 0xC2 then (0xFFFD, 1)
    else if b0 < 0xE0 then
      match rest with
      | b1 :: _ =>
        if 0x80 ≤ b1 ∧ b1 < 0xC0 then ((b0 - 0xC0) * 0x40 + (b1 - 0x80), 2)
        else (0xFFFD, 1)
      | [] => (0xFFFD, 1)
    else if b0 < 0xF0 then
      match rest with
      | b1 :: b2 :: _ =>
        let lo1 := if b0 = 0xE0 then 0xA0 else 0x80
        let hi1 := if b0 = 0xED then 0xA0 else 0xC0
        if lo1 ≤ b1 ∧ b1 < hi1 ∧ 0x80 ≤ b2 ∧ b2 < 0xC0 then
          ((b0 - 0xE0) * 0x1000 + (b1 - 0x80) * 0x40 + (b2 - 0x80), 3)
        else (0xFFFD, 1)
      | _ => (0xFFFD, 1)
    else if b0 < 0xF5 then
      match rest with
      | b1 :: b2 :: b3 :: _ =>
        let lo1 := if b0 = 0xF0 then 0x90 else 0x80
        let hi1 := if b0 = 0xF4 then 0x90 else 0xC0
        if lo1 ≤ b1 ∧ b1 < hi1 ∧ 0x80 ≤ b2 ∧ b2 < 0xC0 ∧ 0x80 ≤ b3 ∧ b3 < 0xC0 then
          ((b0 - 0xF0) * 0x40000 + (b1 - 0x80) * 0x1000 + (b2 - 0x80) * 0x40 + (b3 - 0x80), 4)
        else (0xFFFD, 1)
      | _ => (0xFFFD, 1)
    else (0xFFFD, 1)

/-- Go unicode.IsSpace: exactly the White_Space code points. -/
def goIsSpace (r : Nat) : Bool :=
  r == 9 || r == 10 || r == 11 || r == 12 || r == 13 || r == 32 ||
  r == 0x85 || r == 0xA0 || r == 0x1680 || (Nat.ble 0x2000 r && Nat.ble r 0x200A) ||
  r == 0x2028 || r == 0x2029 || r == 0x202F || r == 0x205F || r == 0x3000

/-- Fueled worker for strings.TrimLeftFunc(s, unicode.IsSpace); a fuel of
s.length suffices since every step drops at least one byte. -/
def trimLeftSpaceAux : Nat → Bytes → Bytes
  | 0, s => s
  | fuel + 1, s =>
    match s with
    | [] => []
    | _ :: _ =>
      let rn := utf8DecodeFirst s
      if goIsSpace rn.1 then trimLeftSpaceAux fuel (s.drop rn.2) else s

/-- Go strings.TrimLeftFunc(s, unicode.IsSpace). -/
def trimLeftSpace (s : Bytes) : Bytes := trimLeftSpaceAux s.length s

/-- Go strings.Split with a one-byte separator. -/
def goSplit (s : Bytes) (sep : Nat) : List Bytes :=
  match s with
  | [] => [[]]
  | b :: t =>
    if b = sep then [] :: goSplit t sep
    else
      match goSplit t sep with
      | w :: ws => (b :: w) :: ws
      | [] => [[b]]

/-- cropString from message.go. -/
def cropString (s : Bytes) (crop : Nat) : Bytes :=
  if s.length > crop then s.take crop ++ bstr "..." else s

/-- Accumulate decimal digits; any non-digit byte aborts. -/
def digitsValAux (ds : Bytes) : Option Nat :=
  ds.foldl
    (fun acc d =>
      acc.bind (fun v => if 48 ≤ d ∧ d ≤ 57 then some (v * 10 + (d - 48)) else none))
    (some 0)

/-- Go strconv.Atoi: optional sign, one or more ASCII digits, 64-bit range check. -/
def goAtoi (s : Bytes) : Option Int :=
  let parseDigits : Bytes → Option Nat := fun ds =>
    if ds = [] then none else digitsValAux ds
  match s with
  | 43 :: ds => (parseDigits ds).bind fun v =>
      if v ≤ 9223372036854775807 then some (Int.ofNat v) else none
  | 45 :: ds => (parseDigits ds).bind fun v =>
      if v ≤ 9223372036854775808 then some (-(Int.ofNat v)) else none
  | ds => (parseDigits ds).bind fun v =>
      if v ≤ 9223372036854775807 then some (Int.ofNat v) else none

/-- Fueled decimal rendering; fuel n+1 always suffices. -/
def natReprAux : Nat → Nat → Bytes
  | 0, _ => []
  | fuel + 1, n => if n < 10 then [48 + n] else natReprAux fuel (n / 10) ++ [48 + n % 10]

/-- Decimal rendering of a natural, as Go fmt %d / strconv.Itoa produce. -/
def natRepr (n : Nat) : Bytes := natReprAux (n + 1) n

/-- Decimal rendering of an integer. -/
def intRepr (v : Int) : Bytes := if v < 0 then 45 :: natRepr v.natAbs else natRepr v.toNat

/-- Zero-padded two-digit decimal (values below 100). -/
def pad2 (n : Nat) : Bytes := [48 + n / 10 % 10, 48 + n % 10]

/-- Zero-padded four-digit decimal (values below 10000). -/
def pad4 (n : Nat) : Bytes := [48 + n / 1000 % 10, 48 + n / 100 % 10, 48 + n / 10 % 10, 48 + n % 10]

/-- Go time.Time, modelled by its civil (wall-clock) fields together with the zone
offset in seconds east of UTC; the denoted instant is epochSec. -/
structure GoTime where
  year : Int
  month : Nat
  day : Nat
  hour : Nat
  minute : Nat
  second : Nat
  nanos : Nat
  offset : Int
deriving Repr, DecidableEq

/-- Days since 1970-01-01 of a civil date (Hinnant's civil-from-days inverse). -/
def daysFromCivil (y : Int) (m d : Nat) : Int :=
  let y' : Int := if m ≤ 2 then y - 1 else y
  let era : Int := y'.fdiv 400
  let yoe : Int := y' - era * 400
  let mp : Int := if m ≤ 2 then (m : Int) + 9 else (m : Int) - 3
  let doy : Int := (153 * mp + 2).fdiv 5 + (d : Int) - 1
  let doe : Int := yoe * 365 + yoe.fdiv 4 - yoe.fdiv 100 + doy
  era * 146097 + doe - 719468

/-- Civil date from days since 1970-01-01. -/
def civilFromDays (z0 : Int) : Int × Nat × Nat :=
  let z := z0 + 719468
  let era := z.fdiv 146097
  let doe := z - era * 146097
  let yoe := (doe - doe.fdiv 1460 + doe.fdiv 36524 - doe.fdiv 146096).fdiv 365
  let y := yoe + era * 400
  let doy := doe - (365 * yoe + yoe.fdiv 4 - yoe.fdiv 100)
  let mp := (5 * doy + 2).fdiv 153
  let d := doy - (153 * mp + 2).fdiv 5 + 1
  let m := if mp < 10 then mp + 3 else mp - 9
  (if m ≤ 2 then y + 1 else y, m.toNat, d.toNat)

/-- Seconds since the Unix epoch of the instant t denotes. -/
def GoTime.epochSec (t : GoTime) : Int :=
  daysFromCivil t.year t.month t.day * 86400 +
    (t.hour : Int) * 3600 + (t.minute : Int) * 60 + (t.second : Int) - t.offset

/-- Go t.In(zone) for a fixed zone of off seconds: the same instant carried to the
new offset. -/
def GoTime.timeIn (t : GoTime) (off : Int) : GoTime :=
  let e := t.epochSec + off
  let days := e.fdiv 86400
  let rem := (e - days * 86400).toNat
  let ymd := civilFromDays days
  { year := ymd.1, month := ymd.2.1, day := ymd.2.2,
    hour := rem / 3600, minute := rem % 3600 / 60, second := rem % 60,
    nanos := t.nanos, offset := off }

/-- Go t.IsZero: t denotes the zero instant, January 1 of year 1, 00:00:00 UTC. -/
def GoTime.isZero (t : GoTime) : Bool :=
  t.epochSec == -62135596800 && t.nanos == 0

/-- Go t.AddDate(years, 0, 0): add to the civil year and renormalise the date the
way time.Date does. -/
def GoTime.addYears (t : GoTime) (y : Int) : GoTime :=
  let ymd := civilFromDays (daysFromCivil (t.year + y) t.month t.day)
  { t with year := ymd.1, month := ymd.2.1, day := ymd.2.2 }

/-- Go t.Format(time.RFC3339): civil fields in t's zone, "Z" for offset zero,
otherwise a signed hh:mm offset (seconds truncated). -/
def GoTime.formatRFC3339 (t : GoTime) : Bytes :=
  let zone : Bytes :=
    if t.offset = 0 then [90]
    else
      let mins := t.offset.natAbs / 60
      (if t.offset < 0 then [45] else [43]) ++ pad2 (mins / 60) ++ [58] ++ pad2 (mins % 60)
  pad4 t.year.toNat ++ [45] ++ pad2 t.month ++ [45] ++ pad2 t.day ++ [84] ++
    pad2 t.hour ++ [58] ++ pad2 t.minute ++ [58] ++ pad2 t.second ++ zone

/-- Three-letter month abbreviation as in Go's time layouts. -/
def monthName (m : Nat) : Bytes :=
  match m with
  | 1 => bstr "Jan" | 2 => bstr "Feb" | 3 => bstr "Mar" | 4 => bstr "Apr"
  | 5 => bstr "May" | 6 => bstr "Jun" | 7 => bstr "Jul" | 8 => bstr "Aug"
  | 9 => bstr "Sep" | 10 => bstr "Oct" | 11 => bstr "Nov" | 12 => bstr "Dec"
  | _ => bstr "---"

/-- Go t.Format("Jan _2 15:04:05") — the RFC 3164 layout without a year; the day
is space-padded to two characters. -/
def GoTime.formatRFC3164NoYear (t : GoTime) : Bytes :=
  monthName t.month ++ [32] ++ (if t.day < 10 then [32, 48 + t.day] else pad2 t.day) ++
    [32] ++ pad2 t.hour ++ [58] ++ pad2 t.minute ++ [58] ++ pad2 t.second

/-- ASCII letter lowered, as Go's time package matches month names
case-insensitively. -/
def lowerByte (c : Nat) : Nat := if 65 ≤ c ∧ c ≤ 90 then c + 32 else c

/-- Month number from a three-letter abbreviation. -/
def monthLookup (a b c : Nat) : Option Nat :=
  let key : Bytes := [lowerByte a, lowerByte b, lowerByte c]
  if key = bstr "jan" then some 1 else if key = bstr "feb" then some 2
  else if key = bstr "mar" then some 3 else if key = bstr "apr" then some 4
  else if key = bstr "may" then some 5 else if key = bstr "jun" then some 6
  else if key = bstr "jul" then some 7 else if key = bstr "aug" then some 8
  else if key = bstr "sep" then some 9 else if key = bstr "oct" then some 10
  else if key = bstr "nov" then some 11 else if key = bstr "dec" then some 12
  else none

def isDigitByte (d : Nat) : Bool := Nat.ble 48 d && Nat.ble d 57

/-- Numeric value of two ASCII digit bytes. -/
def digit2Val (a b : Nat) : Option Nat :=
  if isDigitByte a ∧ isDigitByte b then some ((a - 48) * 10 + (b - 48)) else none

/-- The "_2" day-of-month field: a space-padded single digit or two digits. -/
def dayVal (a b : Nat) : Option Nat :=
  if a = 32 ∧ isDigitByte b then some (b - 48)
  else digit2Val a b

def isLeap (y : Int) : Bool :=
  (y.emod 4 == 0 && y.emod 100 != 0) || y.emod 400 == 0

def daysInMonth (y : Int) (m : Nat) : Nat :=
  if m = 2 then (if isLeap y then 29 else 28)
  else if m = 4 ∨ m = 6 ∨ m = 9 ∨ m = 11 then 30 else 31

/-- Go time.Parse("Jan _2 15:04:05", s) on a 15-byte slice: month name, day and
clock with Go's range validation; the missing year parses as year 0. -/
def parse3164NoYear (s : Bytes) : Option GoTime :=
  match s with
  | [a, b, c, 32, d1, d2, 32, h1, h2, 58, mi1, mi2, 58, s1, s2] =>
    (monthLookup a b c).bind fun mo =>
    (dayVal d1 d2).bind fun d =>
    (digit2Val h1 h2).bind fun h =>
    (digit2Val mi1 mi2).bind fun mi =>
    (digit2Val s1 s2).bind fun sec =>
    if 1 ≤ d ∧ d ≤ daysInMonth 0 mo ∧ h ≤ 23 ∧ mi ≤ 59 ∧ sec ≤ 59 then
      some { year := 0, month := mo, day := d, hour := h, minute := mi, second := sec,
             nanos := 0, offset := 0 }
    else none
  | _ => none

/-- Go time.Parse("2006 Jan _2 15:04:05", s) on a 20-byte slice. -/
def parse3164WithYear (s : Bytes) : Option GoTime :=
  match s with
  | y1 :: y2 :: y3 :: y4 :: 32 :: rest =>
    if isDigitByte y1 ∧ isDigitByte y2 ∧ isDigitByte y3 ∧ isDigitByte y4 then
      let y : Int := ((y1 - 48) * 1000 + (y2 - 48) * 100 + (y3 - 48) * 10 + (y4 - 48) : Nat)
      (parse3164NoYear rest).bind fun t =>
        if t.day ≤ daysInMonth y t.month then some { t with year := y } else none
    else none
  | _ => none

/-- Longest leading run of ASCII digits, and the rest. -/
def digitSpan : Bytes → Bytes × Bytes
  | [] => ([], [])
  | c :: t =>
    if isDigitByte c then
      let r := digitSpan t
      (c :: r.1, r.2)
    else ([], c :: t)

/-- Nanoseconds from a fraction's digit run (truncated past nine digits). -/
def nanosOfFrac (ds : Bytes) : Nat :=
  let nine := ds.take 9
  (digitsValAux nine).getD 0 * 10 ^ (9 - nine.length)

/-- Zone suffix of an ISO 8601 timestamp: empty (UTC), Z, or a signed hh:mm. -/
def iso8601Zone (s : Bytes) : Option Int :=
  match s with
  | [] => some 0
  | [90] => some 0
  | [sg, h1, h2, 58, m1, m2] =>
    (digit2Val h1 h2).bind fun h =>
    (digit2Val m1 m2).bind fun mi =>
    if h ≤ 23 ∧ mi ≤ 59 then
      if sg = 43 then some ((h : Int) * 3600 + (mi : Int) * 60)
      else if sg = 45 then some (-((h : Int) * 3600 + (mi : Int) * 60))
      else none
    else none
  | _ => none

/-- Modelled from the spec: ParseString of the external iso8601 library on the
profile the parser relies on — `YYYY-MM-DDThh:mm:ss[.frac][Z|±hh:mm]` with field
range validation; a missing zone suffix means UTC.  (The library is an external
dependency; only this profile is exercised.) -/
def iso8601Parse (s : Bytes) : Option GoTime :=
  match s with
  | y1 :: y2 :: y3 :: y4 :: 45 :: mo1 :: mo2 :: 45 :: d1 :: d2 :: 84 ::
      h1 :: h2 :: 58 :: mi1 :: mi2 :: 58 :: s1 :: s2 :: rest =>
    if isDigitByte y1 ∧ isDigitByte y2 ∧ isDigitByte y3 ∧ isDigitByte y4 then
      let y : Int := ((y1 - 48) * 1000 + (y2 - 48) * 100 + (y3 - 48) * 10 + (y4 - 48) : Nat)
      (digit2Val mo1 mo2).bind fun mo =>
      (digit2Val d1 d2).bind fun d =>
      (digit2Val h1 h2).bind fun h =>
      (digit2Val mi1 mi2).bind fun mi =>
      (digit2Val s1 s2).bind fun sec =>
      (match rest with
       | 46 :: r2 =>
         let sp := digitSpan r2
         if sp.1 = [] then none
         else (iso8601Zone sp.2).map fun off => (nanosOfFrac sp.1, off)
       | r2 => (iso8601Zone r2).map fun off => ((0 : Nat), off)).bind fun fz =>
      if 1 ≤ mo ∧ mo ≤ 12 ∧ 1 ≤ d ∧ d ≤ 31 ∧ h ≤ 23 ∧ mi ≤ 59 ∧ sec ≤ 59 then
        some { year := y, month := mo, day := d, hour := h, minute := mi, second := sec,
               nanos := fz.1, offset := fz.2 }
      else none
    else none
  | _ => none

/-- The syslog Message record from message.go; the network source is reduced to an
optional marker (the parser never sets it). -/
structure GoMessage where
  time : GoTime
  source : Option Bytes
  facility : Nat
  severity : Nat
  version : Int
  timestamp : GoTime
  hostname : Bytes
  application : Bytes
  procID : Bytes
  msgID : Bytes
  data : Bytes
  content : Bytes
deriving Repr, DecidableEq

/-- Message.Priority from message.go: int(Facility)<<3 | int(Severity). -/
def GoMessage.priority (m : GoMessage) : Nat :=
  m.facility <<< 3 ||| m.severity

/-- leadingSpaceIfNotColon from message.go. -/
def leadingSpaceIfNotColon (s : Bytes) : Bytes :=
  if startsWith s (bstr ":") then s else 32 :: s

/-- strings.Join(h, " "). -/
def joinSpace : List Bytes → Bytes
  | [] => []
  | [w] => w
  | w :: ws => w ++ 32 :: joinSpace ws

/-- Message.format(pri, version) from message.go: the header fields that are
joined with single spaces. -/
def GoMessage.formatParts (m : GoMessage) (pri : Bytes) (version : Int) : List Bytes :=
  let t := if m.timestamp.isZero then m.time else m.timestamp
  let h0 : Bytes :=
    if version = 0 then pri ++ t.formatRFC3164NoYear
    else pri ++ intRepr version ++ [32] ++ t.formatRFC3339
  let h := [h0]
  let h := if m.hostname ≠ [] then h ++ [m.hostname] else h
  let h :=
    if version = 0 ∧ m.application ≠ [] ∧ m.procID ≠ [] then
      h ++ [m.application ++ [91] ++ m.procID ++ [93]]
    else
      let h := if m.application ≠ [] then h ++ [m.application] else h
      if m.procID ≠ [] then h ++ [m.procID] else h
  let h := if m.msgID ≠ [] then h ++ [m.msgID] else h
  if m.data ≠ [] then h ++ [m.data] else h

/-- Message.Format from message.go. -/
def GoMessage.Format (m : GoMessage) : Bytes :=
  let pri := bstr "<" ++ natRepr m.priority ++ bstr ">"
  joinSpace (m.formatParts pri m.version) ++ leadingSpaceIfNotColon m.content

/-- nextSpace from message.go.  It iterates runes, but a space is a one-byte rune,
every rune above 126 begins with a byte above 126, and bytes 32..126 are exactly
the runes 32..126, so the byte-level scan decides identically. -/
def nextSpaceAux : Bytes → Nat → Option Int
  | [], _ => none
  | b :: t, i =>
    if b = 32 then some (i : Int)
    else if b < 32 ∨ b > 126 then some 0
    else nextSpaceAux t (i + 1)

/-- nextSpace from message.go: index of the first space, 0 on any byte outside
printable ASCII, the length when no space occurs. -/
def nextSpace (s : Bytes) : Int :=
  (nextSpaceAux s 0).getD (s.length : Int)

/-- indexRune from message.go: the first unescaped c, tracking the escape flag
exactly as the source's switch does.  The runes it is called with (':', '[', ']')
and the backslash are one-byte runes never contained in a longer UTF-8 sequence,
and every other rune — of whatever width — just clears the flag, so the
byte-level scan returns the same index as the source's rune loop. -/
def indexRuneAux (c : Nat) : Bytes → Bool → Nat → Int
  | [], _, _ => -1
  | b :: t, esc, i =>
    if b = 92 then indexRuneAux c t (!esc) (i + 1)
    else if b = c then
      if esc then indexRuneAux c t false (i + 1) else (i : Int)
    else indexRuneAux c t false (i + 1)

/-- indexRune from message.go. -/
def indexRune (s : Bytes) (c : Nat) : Int := indexRuneAux c s false 0

/-- findBOM from message.go.  none models the index-out-of-range panic that the
unguarded bs[bom+1] / bs[bom+2] accesses raise. -/
def findBOM (b : Bytes) : Option Int :=
  let bom := indexByte b 0xEF
  if 0 ≤ bom then
    match b.get? (bom.toNat + 1) with
    | none => none
    | some x =>
      if x = 0xBB then
        match b.get? (bom.toNat + 2) with
        | none => none
        | some y => if y = 0xBF then some bom else some (-1)
      else some (-1)
  else some (-1)

/-- nextField from message.go.  none models the slice panic s[sp+1:] raised when
nextSpace returns the full length; otherwise the optionally-captured field and
the remaining input are returned. -/
def nextField (s : Bytes) : Option (Option Bytes × Bytes) :=
  if startsWith s (bstr "- ") then some (some (bstr "-"), s.drop 2)
  else
    let sp := nextSpace s
    if 0 < sp ∧ sp ≤ (s.length : Int) ∧ s.head? ≠ some 91 then
      if sp + 1 ≤ (s.length : Int) then some (some (sliceTo s sp), sliceFrom s (sp + 1))
      else none
    else some (none, s)

/-- The structured-data for-loop of parseRFC5424Message, verbatim: state is the
Data captured so far, the remaining string, and the working index r.  The loop
does not always progress (r = 0, or a ']'-less '[' tail, leave r unchanged), so
it is fueled; none models divergence. -/
def sdLoop : Nat → Bytes → Bytes → Int → Option (Bytes × Bytes)
  | 0, _, _, _ => none
  | fuel + 1, dat, s, r =>
    if r < 0 then some (dat, s)
    else if r = (s.length : Int) - 1 then some (s, sliceFrom s (r + 1))
    else if 0 < r ∧ r < (s.length : Int) then
      let l := indexRune (sliceFrom s r) 91
      if l > 0 then
        let r2 := indexRune (sliceFrom s (r + l)) 93
        if r2 ≥ 0 then sdLoop fuel dat s (r + r2 + l) else sdLoop fuel dat s r
      else
        let r' := r + 1
        let dat' := sliceTo s r'
        let s' := sliceFrom s (r' + 1)
        sdLoop fuel dat' s' (indexRune s' 93)
    else sdLoop fuel dat s r

/-- Outcome of the parser: a Message, a diagnostic error, a runtime panic, or
divergence of the structured-data loop. -/
inductive ParseOut where
  | panicked
  | errored (e : Bytes)
  | diverged
  | ok (m : GoMessage)
deriving Repr, DecidableEq

/-- The timestamp block of parseRFC5424Message (message.go lines 239-250). -/
def ts5424Stage (m0 : GoMessage) (s0 : Bytes) : GoMessage × Bytes :=
  if startsWith s0 (bstr "- ") then (m0, s0.drop 2)
  else
    let sp := indexByte s0 32
    if sp ≥ 0 then
      match iso8601Parse (sliceTo s0 sp) with
      | some ts => ({ m0 with timestamp := ts }, sliceFrom s0 (sp + 1))
      | none => (m0, s0)
    else (m0, s0)

/-- One nextField call assigned into a message field (a setter picks the field). -/
def fieldStep (set : GoMessage → Bytes → GoMessage) (m : GoMessage) (s : Bytes) :
    Option (GoMessage × Bytes) :=
  (nextField s).map fun fr =>
    (match fr.1 with | some v => set m v | none => m, fr.2)

def setHostname (m : GoMessage) (v : Bytes) : GoMessage := { m with hostname := v }

def setApplication (m : GoMessage) (v : Bytes) : GoMessage := { m with application := v }

def setProcID (m : GoMessage) (v : Bytes) : GoMessage := { m with procID := v }

def setMsgID (m : GoMessage) (v : Bytes) : GoMessage := { m with msgID := v }

/-- The four nextField calls of parseRFC5424Message (message.go lines 252-255);
none is a propagated slice panic. -/
def fields5424Stage (m1 : GoMessage) (s1 : Bytes) : Option (GoMessage × Bytes) :=
  (fieldStep setHostname m1 s1).bind fun p2 =>
  (fieldStep setApplication p2.1 p2.2).bind fun p3 =>
  (fieldStep setProcID p3.1 p3.2).bind fun p4 =>
  fieldStep setMsgID p4.1 p4.2

/-- The structured-data block of parseRFC5424Message (message.go lines 257-282);
none is divergence of the loop. -/
def sdStage (fuel : Nat) (s5 : Bytes) : Option (Bytes × Bytes) :=
  if startsWith s5 (bstr "- ") then some (bstr "-", s5.drop 2)
  else if startsWith s5 (bstr "[") then sdLoop fuel [] s5 (indexRune s5 93)
  else some ([], s5)

/-- The content block of parseRFC5424Message (message.go lines 284-291). -/
def rest5424 (m5 : GoMessage) (d s6 : Bytes) (hasBOM : Bool) : ParseOut :=
  let m6 := { m5 with data := d }
  if !hasBOM then
    let s7 := if startsWith s6 (bstr " ") then s6.drop 1 else s6
    .ok { m6 with content := s7 }
  else .ok m6

/-- parseRFC5424Message from message.go, as the composition of its blocks. -/
def parseRFC5424Message (fuel : Nat) (m0 : GoMessage) (s0 : Bytes) (hasBOM : Bool) :
    ParseOut :=
  let p1 := ts5424Stage m0 s0
  match fields5424Stage p1.1 p1.2 with
  | none => .panicked
  | some (m5, s5) =>
    match sdStage fuel s5 with
    | none => .diverged
    | some (d, s6) => rest5424 m5 d s6 hasBOM

/-- The zone update of the TZ±N block: an Atoi success within -12..+12 carries
the timestamp into the fixed zone, anything else leaves the message alone. -/
def tzApply (m : GoMessage) (o : Option Int) : GoMessage :=
  match o with
  | some tz =>
    if -12 ≤ tz ∧ tz ≤ 12 then { m with timestamp := m.timestamp.timeIn (tz * 3600) }
    else m
  | none => m

/-- The TZ±N block of parseRFC3164Message (message.go lines 194-203).  none
models the slice panic s[sp+1:] raised when the TZ token runs to the end of the
input. -/
def tzAdjust (m : GoMessage) (s : Bytes) : Option (GoMessage × Bytes) :=
  if startsWith s (bstr "TZ") then
    let sp := nextSpace s
    if 0 < sp ∧ sp ≤ (s.length : Int) then
      let m' := tzApply m (goAtoi (slice s 2 sp))
      if sp + 1 ≤ (s.length : Int) then some (m', sliceFrom s (sp + 1)) else none
    else some (m, s)
  else some (m, s)

/-- The tail of parseRFC3164Message from the colon search on (message.go lines
205-233): content/prefix split and the hostname, application and procID words. -/
def rfc3164Rest (m : GoMessage) (s : Bytes) : GoMessage :=
  let colon := indexRune s 58
  if colon < 0 then { m with content := s }
  else
    let m1 := { m with content := sliceFrom s colon }
    let sPre := sliceTo s colon
    let words := goSplit sPre 32
    let m2 :=
      match words.head? with
      | some w => { m1 with hostname := w }
      | none => m1
    if words.length > 1 then
      let last := (words.getLast?).getD []
      if endsWithByte last 93 then
        let l := indexByte last 91
        if l > 0 then
          { m2 with application := sliceTo last l,
                    procID := slice last (l + 1) ((last.length : Int) - 1) }
        else { m2 with application := last }
      else { m2 with application := last }
    else m2

/-- The timestamp block of parseRFC3164Message (message.go lines 171-190). -/
def rfc3164Timestamp (m : GoMessage) (s1 : Bytes) : GoMessage × Bytes :=
  if 15 < s1.length ∧ s1.get? 15 = some 32 then
    match parse3164NoYear (s1.take 15) with
    | some ts =>
      let ts2 := if ts.year = 0 then ts.addYears m.time.year else ts
      ({ m with timestamp := ts2 }, s1.drop 15)
    | none => (m, s1)
  else if 20 < s1.length ∧ s1.get? 20 = some 32 then
    match parse3164WithYear (s1.take 20) with
    | some ts => ({ m with timestamp := ts }, s1.drop 20)
    | none => (m, s1)
  else (m, s1)

/-- parseRFC3164Message from message.go. -/
def parseRFC3164Message (m : GoMessage) (s0 : Bytes) : ParseOut :=
  let s1 := trimLeftSpace s0
  let step1 := rfc3164Timestamp m s1
  let s3 := trimLeftSpace step1.2
  match tzAdjust step1.1 s3 with
  | none => .panicked
  | some (m3, s4) => .ok (rfc3164Rest m3 s4)

/-- The priority block of parseMessage (message.go lines 132-147).  none models
the s[0] panic on an empty input; otherwise either the diagnostic error or the
priority (13 when no valid <...> window exists) and the remaining input. -/
def priorityStage (s : Bytes) : Option (Except Bytes (Int × Bytes)) :=
  match s with
  | [] => none
  | c :: _ =>
    some <|
      if c = 60 then
        let n := 1 + indexByte (s.drop 1) 62
        if 1 < n ∧ n < 5 then
          match goAtoi (slice s 1 n) with
          | some p => .ok (p, sliceFrom s (n + 1))
          | none =>
            .error (slice s 1 n ++ bstr ": message has invalid priority (" ++
              cropString s 50 ++ bstr ")")
        else .ok (13, s)
      else .ok (13, s)

/-- parseMessage from message.go, with the package clock passed explicitly. -/
def parseMessage (fuel : Nat) (now : GoTime) (pkt : Bytes) : ParseOut :=
  let m : GoMessage :=
    { time := now, source := none, facility := 0, severity := 0, version := 0,
      timestamp := now, hostname := [], application := [], procID := [],
      msgID := [], data := [], content := [] }
  let bs1 := trimRightNulCrLf pkt
  match findBOM bs1 with
  | none => .panicked
  | some bom =>
    let m1 := if bom ≥ 0 then { m with content := sliceFrom bs1 (bom + 3) } else m
    let bs2 := if bom ≥ 0 then sliceTo bs1 bom else bs1
    match priorityStage bs2 with
    | none => .panicked
    | some (.error e) => .errored e
    | some (.ok (prio, s)) =>
      let m2 := { m1 with severity := (prio.emod 8).toNat,
                          facility := ((prio.fdiv 8).emod 256).toNat }
      if startsWith s (bstr "1 ") then
        parseRFC5424Message fuel { m2 with version := 1 } (s.drop 2) (0 ≤ bom)
      else
        parseRFC3164Message m2 s

/-- A Filter is a predicate over messages (filter.go). -/
abbrev GoFilter := GoMessage → Bool

/-- The constant-true filter (everything in filter.go, exported as
AcceptEverything by server.go). -/
def AcceptEverything : GoFilter := fun _ => true

/-- All from filter.go: every filter must accept. -/
def All (fs : List GoFilter) : GoFilter := fun m =>
  match fs with
  | [] => true
  | f :: t => if !(f m) then false else All t m

/-- Any from filter.go: some filter must accept. -/
def Any (fs : List GoFilter) : GoFilter := fun m =>
  match fs with
  | [] => false
  | f :: t => if f m then true else Any t m

/-- facToStr from facility.go. -/
def facToStr : List Bytes :=
  [bstr "kern", bstr "user", bstr "mail", bstr "daemon", bstr "auth", bstr "syslog",
   bstr "lpr", bstr "news", bstr "uucp", bstr "cron", bstr "authpriv", bstr "ftp",
   bstr "ntp", bstr "logaudit", bstr "logalert", bstr "clock", bstr "local0",
   bstr "local1", bstr "local2", bstr "local3", bstr "local4", bstr "local5",
   bstr "local6", bstr "local7"]

/-- sevToStr from server.go. -/
def sevToStr : List Bytes :=
  [bstr "emerg", bstr "alert", bstr "crit", bstr "err", bstr "warning",
   bstr "notice", bstr "info", bstr "debug"]

/-- Facility.String from facility.go. -/
def facilityStr (f : Nat) : Bytes :=
  if f > 23 then bstr "unknown" else facToStr.getD f []

/-- Severity.String from server.go. -/
def severityStr (s : Nat) : Bytes :=
  if s > 7 then bstr "unknown" else sevToStr.getD s []

/-- Index of the first table entry equal to s. -/
def tableIndex (tbl : List Bytes) (s : Bytes) : Option Nat :=
  match tbl with
  | [] => none
  | w :: ws => if w = s then some 0 else (tableIndex ws s).map (· + 1)

/-- ParseFacility from facility.go. -/
def ParseFacility (s : Bytes) : Except Bytes Nat :=
  match tableIndex facToStr s with
  | some i => .ok i
  | none => .error (s ++ bstr ": unknown facility")

/-- ParseSeverity from server.go, with the warn/error aliases. -/
def ParseSeverity (s : Bytes) : Except Bytes Nat :=
  match tableIndex sevToStr s with
  | some i => .ok i
  | none =>
    if s = bstr "warn" then .ok 4
    else if s = bstr "error" then .ok 3
    else .error (s ++ bstr ": unknown severity")

/-- ParseFacilities from facility.go: comma-split, first failure aborts. -/
def ParseFacilities (list : Bytes) : Except Bytes (List Nat) :=
  (goSplit list 44).foldlM (fun acc w => (ParseFacility w).map (fun f => acc ++ [f])) []

/-- ParseSeverities from server.go. -/
def ParseSeverities (list : Bytes) : Except Bytes (List Nat) :=
  (goSplit list 44).foldlM (fun acc w => (ParseSeverity w).map (fun f => acc ++ [f])) []

/-- Facilities.Filter from facility.go: membership of the message's facility. -/
def facilitiesFilter (fs : List Nat) : GoFilter := fun m =>
  fs.contains m.facility

/-- Severities.Filter from server.go. -/
def severitiesFilter (ss : List Nat) : GoFilter := fun m =>
  ss.contains m.severity

/-- errors.Join on two optional errors: nils are dropped, both messages joined
with a newline. -/
def errorsJoin : Option Bytes → Option Bytes → Option Bytes
  | none, none => none
  | some a, none => some a
  | none, some b => some b
  | some a, some b => some (a ++ [10] ++ b)

/-- ParsePriorityFilter from server.go; the pair carries Go's two return values
(filter, error). -/
def ParsePriorityFilter (pri : Bytes) : Option GoFilter × Option Bytes :=
  let parts := goSplit pri 46
  if parts.length ≠ 2 ∨ parts.getD 0 [] = [] ∨ parts.getD 1 [] = [] then
    (none, some (pri ++ bstr ": invalid priority filter\nMust be like \"*.*\" | \"user.info\" | \"kern,auth.*\" etc.\n"))
  else
    let p0 := parts.getD 0 []
    let p1 := parts.getD 1 []
    if p0 = bstr "*" ∧ p1 = bstr "*" then (some AcceptEverything, none)
    else if p0 ≠ bstr "*" ∧ p1 ≠ bstr "*" then
      match ParseFacilities p0, ParseSeverities p1 with
      | .ok fs, .ok ss => (some (All [facilitiesFilter fs, severitiesFilter ss]), none)
      | .error e1, .ok _ => (none, errorsJoin (some e1) none)
      | .ok _, .error e2 => (none, errorsJoin none (some e2))
      | .error e1, .error e2 => (none, errorsJoin (some e1) (some e2))
    else if p0 = bstr "*" ∧ p1 ≠ bstr "*" then
      match ParseSeverities p1 with
      | .ok ss => (some (severitiesFilter ss), none)
      | .error e => (some (severitiesFilter []), some e)
    else
      match ParseFacilities p0 with
      | .ok fs => (some (facilitiesFilter fs), none)
      | .error e => (some (facilitiesFilter []), some e)

/-- BaseHandler from handler.go: the buffered channel is its pending contents
plus its capacity; discardFunc and the forward-through flag as in the source. -/
structure GoBaseHandler where
  queue : List GoMessage
  qlen : Nat
  discardFunc : Option (GoMessage → Bool)
  ft : Bool

/-- BaseHandler.Handle from handler.go on a non-nil message: reject via the
discard predicate, otherwise a non-blocking enqueue (select with default) that
drops when the buffer is full; the return value follows the ft flag. -/
def GoBaseHandler.Handle (h : GoBaseHandler) (m : GoMessage) :
    GoBaseHandler × Option GoMessage :=
  let rejected :=
    match h.discardFunc with
    | some f => !f m
    | none => false
  if rejected then (h, some m)
  else
    let h' := if h.queue.length < h.qlen then { h with queue := h.queue ++ [m] } else h
    (h', if h.ft then some m else none)

/-- Fueled worker for strings.ReplaceAll; fuel s.length suffices for a non-empty
pattern. -/
def goReplaceAllAux : Nat → Bytes → Bytes → Bytes → Bytes
  | 0, s, _, _ => s
  | fuel + 1, s, pat, rep =>
    if pat ≠ [] ∧ startsWith s pat then rep ++ goReplaceAllAux fuel (s.drop pat.length) pat rep
    else
      match s with
      | [] => []
      | c :: t => c :: goReplaceAllAux fuel t pat rep

/-- Go strings.ReplaceAll(s, pat, rep) for a non-empty pattern. -/
def goReplaceAll (s pat rep : Bytes) : Bytes := goReplaceAllAux s.length s pat rep

/-- Go strings.Index(s, pat) ≥ 0, i.e. substring occurrence. -/
def containsSub (s pat : Bytes) : Bool :=
  match s with
  | [] => pat = []
  | _ :: t => startsWith s pat || containsSub t pat

/-- ifBlank from filehandler.go. -/
def ifBlank (s d : Bytes) : Bytes :=
  if s = [] ∨ s = bstr "-" then d else s

def hostnamePlaceholder : Bytes := bstr "%hostname%"

def programNamePlaceholder : Bytes := bstr "%programname%"

def facilityPlaceholder : Bytes := bstr "%facility%"

def severityPlaceholder : Bytes := bstr "%severity%"

/-- Modelled from the spec: the file handler's filename mangler over the four
placeholders %hostname%, %programname%, %facility% and %severity%.  The copy of
filehandler.go under src/ carries only the hostname/programname pair, but the
repository's TestFilenameMangler exercises all four, so the remaining two are
modelled from the spec sentence "Substituted from the message; blank or `-`
becomes `unknown`", with the facility and severity names taken from their
String() tables. -/
structure FilenameMangler where
  hasHostname : Bool
  hasApplication : Bool
  hasFacility : Bool
  hasSeverity : Bool
  template : Bytes

/-- newFilenameMangler: remember which placeholders the template mentions. -/
def newFilenameMangler (template : Bytes) : FilenameMangler :=
  { hasHostname := containsSub template hostnamePlaceholder,
    hasApplication := containsSub template programNamePlaceholder,
    hasFacility := containsSub template facilityPlaceholder,
    hasSeverity := containsSub template severityPlaceholder,
    template := template }

/-- The per-message file key, as fileID in filehandler.go extended by the test's
facility/severity fields. -/
structure FileID where
  hostname : Bytes
  application : Bytes
  facility : Bytes
  severity : Bytes
deriving Repr, DecidableEq

/-- filenameMangler.id. -/
def FilenameMangler.id (fm : FilenameMangler) (m : GoMessage) : FileID :=
  { hostname := if fm.hasHostname then m.hostname else [],
    application := if fm.hasApplication then m.application else [],
    facility := if fm.hasFacility then facilityStr m.facility else [],
    severity := if fm.hasSeverity then severityStr m.severity else [] }

/-- filenameMangler.name: substitute every placeholder, blank or "-" fields
becoming "unknown". -/
def FilenameMangler.name (fm : FilenameMangler) (m : GoMessage) : Bytes :=
  let n0 := fm.template
  let n1 := if fm.hasHostname then goReplaceAll n0 hostnamePlaceholder (ifBlank m.hostname (bstr "unknown")) else n0
  let n2 := if fm.hasApplication then goReplaceAll n1 programNamePlaceholder (ifBlank m.application (bstr "unknown")) else n1
  let n3 := if fm.hasFacility then goReplaceAll n2 facilityPlaceholder (ifBlank (facilityStr m.facility) (bstr "unknown")) else n2
  if fm.hasSeverity then goReplaceAll n3 severityPlaceholder (ifBlank (severityStr m.severity) (bstr "unknown")) else n3

/-- The receiver clock value the repository's tests pin: 2023-10-26T15:31:01Z. -/
def t0 : GoTime :=
  { year := 2023, month := 10, day := 26, hour := 15, minute := 31, second := 1,
    nanos := 0, offset := 0 }

/-- A message carrying a given facility and severity and otherwise empty fields. -/
def sampleMsg (f s : Nat) : GoMessage :=
  { time := t0, source := none, facility := f, severity := s, version := 0,
    timestamp := t0, hostname := [], application := [], procID := [], msgID := [],
    data := [], content := [] }

/-- The message of a successful parse. -/
def parseOutOk : ParseOut → Option GoMessage
  | .ok m => some m
  | _ => none

/-- Facility and severity of a successful parse. -/
def parseOutFacSev (p : ParseOut) : Option (Nat × Nat) :=
  (parseOutOk p).map fun m => (m.facility, m.severity)

structure WFTime (t : GoTime) : Prop where
  year_lo : 1 ≤ t.year
  year_hi : t.year ≤ 9999
  month_lo : 1 ≤ t.month
  month_hi : t.month ≤ 12
  day_lo : 1 ≤ t.day
  day_hi : t.day ≤ 31
  hour_hi : t.hour ≤ 23
  minute_hi : t.minute ≤ 59
  second_hi : t.second ≤ 59
  nanos_zero : t.nanos = 0
  offset_min : t.offset % 60 = 0
  offset_lo : -86340 ≤ t.offset
  offset_hi : t.offset ≤ 86340

/-- A field is renderable-recoverable: nonempty, not starting with a bracket,
and made of printable non-space ASCII. -/
def FieldWF (f : Bytes) : Prop :=
  f ≠ [] ∧ f.head? ≠ some 91 ∧ ∀ b ∈ f, 33 ≤ b ∧ b ≤ 126

/-- One structured-data element as rendered: a bracketed interior. -/
def sdBlock (i : Bytes) : Bytes := 91 :: (i ++ [93])

/-- Concatenation of structured-data elements. -/
def sdConcat : List Bytes → Bytes
  | [] => []
  | i :: r => sdBlock i ++ sdConcat r

/-- The well-formed messages: version 1, a representable nonzero timestamp,
nonempty bracket-free printable header fields, structured data that is empty, the
nil-value, or a run of bracketed elements, and content that cannot be mistaken
for a header or structured-data fragment. -/
structure WFMessage (m : GoMessage) : Prop where
  fac_lt : m.facility < 24
  sev_lt : m.severity < 8
  ver_one : m.version = 1
  ts_wf : WFTime m.timestamp
  ts_nonzero : m.timestamp.isZero = false
  host_wf : FieldWF m.hostname
  app_wf : FieldWF m.application
  proc_wf : FieldWF m.procID
  msg_wf : FieldWF m.msgID
  data_wf : m.data = [] ∨ m.data = [45] ∨
    ∃ bs, bs ≠ [] ∧ m.data = sdConcat bs ∧
      ∀ i ∈ bs, ∀ b ∈ i, 32 ≤ b ∧ b ≤ 126 ∧ b ≠ 92 ∧ b ≠ 93
  content_wf : ∀ b ∈ m.content, 32 ≤ b ∧ b ≤ 126 ∧ b ≠ 91 ∧ b ≠ 92 ∧ b ≠ 93
  content_head : m.content.head? ≠ some 32 ∧ m.content.head? ≠ some 58
  content_dash : m.data = [] → startsWith m.content (bstr "- ") = false

/-- A version-1 message whose hostname contains an inner space. -/
def spacedHost : GoMessage :=
  { time := t0, source := none, facility := 4, severity := 2, version := 1,
    timestamp := t0, hostname := bstr "a b", application := bstr "app",
    procID := bstr "p", msgID := bstr "m", data := bstr "-", content := bstr "hi" }

/-- A concrete well-formed message for the round trip. -/
def c5Witness : GoMessage :=
  { time := t0, source := none, facility := 4, severity := 2, version := 1,
    timestamp := t0, hostname := bstr "host", application := bstr "app",
    procID := bstr "1234", msgID := bstr "ID47", data := bstr "[a]", content := bstr "hi" }

/-- C10: for every list of filters and every message, All accepts exactly when
every filter in the list accepts and Any exactly when at least one does; with no
filters All accepts every message while Any rejects every message. -/
theorem all_any_characterisation (fs : List GoFilter) (m : GoMessage) :
    (All fs m = true ↔ ∀ f ∈ fs, f m = true) ∧
    (Any fs m = true ↔ ∃ f ∈ fs, f m = true) ∧
    All [] m = true ∧ Any [] m = false := by
  refine ⟨?_, ?_, rfl, rfl⟩
  · induction fs with
    | nil => simp [All]
    | cons f t ih => by_cases hf : f m = true <;> simp [All, hf, ih]
  · induction fs with
    | nil => simp [Any]
    | cons f t ih => by_cases hf : f m = true <;> simp [Any, hf, ih]

/-- C8: BaseHandler.Handle on a non-nil message is a total state function (the
select with a default never blocks): a message the discard predicate rejects is
returned unchanged with nothing enqueued; otherwise it is enqueued exactly when
the queue is below its capacity and silently dropped when full, the queue never
exceeding the capacity, and the caller gets the message back exactly when the
forward-through flag is set. -/
theorem baseHandler_handle_spec (h : GoBaseHandler) (m : GoMessage)
    (f : GoMessage → Bool) (hq : h.queue.length ≤ h.qlen)
    (hd : h.discardFunc = some f) :
    (f m = false → h.Handle m = (h, some m)) ∧
    (f m = true →
      (h.Handle m).1.queue =
        (if h.queue.length < h.qlen then h.queue ++ [m] else h.queue) ∧
      (h.Handle m).1.queue.length ≤ h.qlen ∧
      (h.Handle m).2 = (if h.ft then some m else none)) := by
  constructor
  · intro hf
    simp [GoBaseHandler.Handle, hd, hf]
  · intro hf
    have hr : h.Handle m =
        (if h.queue.length < h.qlen then { h with queue := h.queue ++ [m] } else h,
         if h.ft then some m else none) := by
      simp [GoBaseHandler.Handle, hd, hf]
    refine ⟨?_, ?_, ?_⟩
    · rw [hr]
      by_cases hlen : h.queue.length < h.qlen <;> simp [hlen]
    · rw [hr]
      by_cases hlen : h.queue.length < h.qlen
      · simp only [hlen, if_true]
        simp only [List.length_append, List.length_cons, List.length_nil]
        omega
      · simp only [hlen, if_false]
        exact hq
    · rw [hr]

def handlerW : GoBaseHandler :=
  { queue := [], qlen := 1, discardFunc := some (fun m => decide (m.severity = 5)),
    ft := false }

/-- Witness for C8 at a concrete handler and message. -/
theorem baseHandler_handle_spec_witness :
    (handlerW.Handle (sampleMsg 1 5)).1.queue = [sampleMsg 1 5] ∧
    (handlerW.Handle (sampleMsg 1 5)).2 = none := by
  have h := baseHandler_handle_spec handlerW (sampleMsg 1 5)
    (fun m => decide (m.severity = 5)) (by decide) rfl
  obtain ⟨e1, e2, e3⟩ := h.2 (by decide)
  refine ⟨?_, ?_⟩
  · rw [e1]; decide
  · rw [e3]; decide

/-- C7: for every facility f ≤ Local7 (23) and severity s < 8 the combined
priority round-trips: a message with those fields reports Priority f·8+s, and
parseMessage on an input whose priority field holds f·8+s decodes facility f and
severity s. -/
theorem priority_roundtrip :
    ∀ f < 24, ∀ s < 8,
      (sampleMsg f s).priority = f * 8 + s ∧
      parseOutFacSev (parseMessage 100 t0 (bstr "<" ++ natRepr (f * 8 + s) ++ bstr ">x")) =
        some (f, s) := by decide

/-- Witness for C7 at facility 20 (local4) and severity 5 (notice). -/
theorem priority_roundtrip_witness :
    (sampleMsg 20 5).priority = 165 ∧
    parseOutFacSev (parseMessage 100 t0 (bstr "<165>x")) = some (20, 5) := by
  have h := priority_roundtrip 20 (by decide) 5 (by decide)
  have e : bstr "<" ++ natRepr (20 * 8 + 5) ++ bstr ">x" = bstr "<165>x" := by decide
  rw [e] at h
  exact h

/-- The template the repository's TestFilenameMangler uses. -/
def testTemplate : Bytes := bstr "/var/log/%hostname%/%facility%/%programname%-%severity%.log"

/-- C9 (spec-modelled): the file handler's output path substitutes each of the
four placeholders with the corresponding message field, a blank or "-" field
becoming "unknown"; checked as the general substitution shape over the test
template together with the repository's TestFilenameMangler vectors. -/
theorem filenameMangler_name_spec :
    (∀ m : GoMessage,
      (newFilenameMangler testTemplate).name m =
        goReplaceAll (goReplaceAll (goReplaceAll (goReplaceAll testTemplate
          hostnamePlaceholder (ifBlank m.hostname (bstr "unknown")))
          programNamePlaceholder (ifBlank m.application (bstr "unknown")))
          facilityPlaceholder (ifBlank (facilityStr m.facility) (bstr "unknown")))
          severityPlaceholder (ifBlank (severityStr m.severity) (bstr "unknown"))) ∧
    (newFilenameMangler testTemplate).name
        { sampleMsg 3 4 with hostname := bstr "myhost", application := bstr "myapp" } =
      bstr "/var/log/myhost/daemon/myapp-warning.log" ∧
    (newFilenameMangler testTemplate).name (sampleMsg 0 0) =
      bstr "/var/log/unknown/kern/unknown-emerg.log" := by
  refine ⟨fun m => rfl, by decide, by decide⟩

/-- The datagram on which the structured-data loop of the parser spins: the
first ']' is followed by a '[' that no later ']' closes, so r never changes. -/
def divergentInput : Bytes := bstr "<34>1 - h a p m [a] x [b y"

/-- On "[a] x [b y" with r = 2 the loop body recomputes r = 2, for every fuel. -/
theorem sdLoop_stuck : ∀ fuel, sdLoop fuel [] (bstr "[a] x [b y") 2 = none := by
  intro fuel
  induction fuel with
  | zero => rfl
  | succ n ih => exact ih

/-- C1 (code bug): parseMessage is not total.  It panics on the empty datagram
and on one trimming to nothing (the unguarded s[0] index), panics when the
trimmed bytes end with 0xEF (findBOM reads bs[bom+1] past the end) and when a
BOM opens the datagram (the header becomes empty), and its structured-data loop
diverges on a crafted RFC 5424 datagram, whatever fuel it is granted. -/
theorem parseMessage_not_total :
    parseMessage 100 t0 [] = .panicked ∧
    parseMessage 100 t0 [10, 13, 0] = .panicked ∧
    parseMessage 100 t0 (bstr "abc" ++ [0xEF]) = .panicked ∧
    parseMessage 100 t0 ([0xEF, 0xBB, 0xBF] ++ bstr "x") = .panicked ∧
    ∀ fuel, parseMessage fuel t0 divergentInput = .diverged := by
  refine ⟨rfl, rfl, rfl, rfl, ?_⟩
  intro fuel
  induction fuel with
  | zero => rfl
  | succ n ih => exact ih

/-- C2 (amended): the priority block of parseMessage.  With '<' as first byte
and the next '>' at index n, extraction happens exactly when 2 ≤ n ≤ 4 — one to
three characters between the brackets: if they parse as an integer p the
priority becomes p and the input is consumed past '>', and if not the result is
exactly the diagnostic "chars: message has invalid priority (cropped input)".
Without a leading '<', or without such a '>', the stage passes the input through
with the default priority 13, which decodes to facility 1 (user) and severity 5
(notice), as the trailing concrete parse shows end to end. -/
theorem priorityStage_spec (c : Nat) (t : Bytes) :
    (c ≠ 60 → priorityStage (c :: t) = some (.ok (13, c :: t))) ∧
    (c = 60 →
      ((¬(1 < 1 + indexByte t 62 ∧ 1 + indexByte t 62 < 5)) →
        priorityStage (c :: t) = some (.ok (13, c :: t))) ∧
      ((1 < 1 + indexByte t 62 ∧ 1 + indexByte t 62 < 5) →
        (∀ p, goAtoi (slice (c :: t) 1 (1 + indexByte t 62)) = some p →
          priorityStage (c :: t) =
            some (.ok (p, sliceFrom (c :: t) (1 + indexByte t 62 + 1)))) ∧
        (goAtoi (slice (c :: t) 1 (1 + indexByte t 62)) = none →
          priorityStage (c :: t) =
            some (.error (slice (c :: t) 1 (1 + indexByte t 62) ++
              bstr ": message has invalid priority (" ++
              cropString (c :: t) 50 ++ bstr ")"))))) ∧
    ((13 : Int).emod 8 = 5 ∧ (13 : Int).fdiv 8 = 1) ∧
    parseOutFacSev (parseMessage 100 t0 (bstr "no prio")) = some (1, 5) := by
  refine ⟨?_, ?_, by decide, by decide⟩
  · intro hc
    simp [priorityStage, hc]
  · intro hc
    subst hc
    have hd : (60 :: t : Bytes).drop 1 = t := rfl
    constructor
    · intro hn
      simp only [priorityStage]
      rw [hd]
      split_ifs with h1 <;> rfl
    · intro hn
      constructor
      · intro p hp
        simp only [priorityStage]
        rw [hd]
        split_ifs with h1 <;> rw [hp]
      · intro hp
        simp only [priorityStage]
        rw [hd]
        split_ifs with h1 <;> rw [hp]

/-- Witness for C2's amended statement: a malformed priority "<1a>" yields the
diagnostic, a well-formed "<165>" is extracted. -/
theorem priorityStage_spec_witness :
    priorityStage (bstr "<1a>msg") =
      some (.error (bstr "1a" ++ bstr ": message has invalid priority (" ++
        cropString (bstr "<1a>msg") 50 ++ bstr ")")) ∧
    priorityStage (bstr "<165>msg") = some (.ok (165, bstr "msg")) := by
  constructor
  · exact (((priorityStage_spec 60 (bstr "1a>msg")).2.1 rfl).2 (by decide)).2 (by decide)
  · exact (((priorityStage_spec 60 (bstr "165>msg")).2.1 rfl).2 (by decide)).1 165 (by decide)

/-- C2 counterexample: on "<7>x" a single character sits between '<' and '>',
yet priority 7 is extracted — facility 0 (kern), severity 7 (debug) — while the
claim's 2-to-4-digit condition demands the default 13, i.e. facility 1 (user)
and severity 5 (notice). -/
theorem priorityStage_one_digit_counterexample :
    parseOutFacSev (parseMessage 100 t0 (bstr "<7>x")) = some (0, 7) ∧
    parseOutFacSev (parseMessage 100 t0 (bstr "<7>x")) ≠ some (1, 5) := by decide

theorem goSplit_ne_nil (s : Bytes) (sep : Nat) : goSplit s sep ≠ [] := by
  cases s with
  | nil => simp [goSplit]
  | cons b t =>
    simp only [goSplit]
    split_ifs
    · simp
    · cases h : goSplit t sep <;> simp

theorem goSplit_length (s : Bytes) (sep : Nat) :
    (goSplit s sep).length = s.count sep + 1 := by
  induction s with
  | nil => simp [goSplit]
  | cons b t ih =>
    by_cases hb : b = sep
    · subst hb
      simp [goSplit, List.count_cons, ih]
    · obtain ⟨w, ws, hw⟩ := List.exists_cons_of_ne_nil (goSplit_ne_nil t sep)
      simp [goSplit, hb, hw, List.count_cons]
      have := ih
      rw [hw] at this
      simpa using this

/-- C6: ParsePriorityFilter returns an error when its argument does not contain
exactly one '.' with both sides non-empty, and when a listed facility or
severity name is unknown; "*.*" yields a filter accepting every message; and a
non-wildcard "X.Y" yields the conjunction filter of facility-list and
severity-list membership. -/
theorem parsePriorityFilter_spec :
    (∀ pri : Bytes,
      (pri.count 46 ≠ 1 ∨ (goSplit pri 46).getD 0 [] = [] ∨ (goSplit pri 46).getD 1 [] = []) →
      (ParsePriorityFilter pri).2.isSome = true) ∧
    (∀ pri X Y e, goSplit pri 46 = [X, Y] → X ≠ bstr "*" →
      ParseFacilities X = .error e → (ParsePriorityFilter pri).2.isSome = true) ∧
    (∀ pri X Y e, goSplit pri 46 = [X, Y] → Y ≠ bstr "*" →
      ParseSeverities Y = .error e → (ParsePriorityFilter pri).2.isSome = true) ∧
    ((ParsePriorityFilter (bstr "*.*")).2 = none ∧
      ∃ f, (ParsePriorityFilter (bstr "*.*")).1 = some f ∧ ∀ m, f m = true) ∧
    (∀ pri X Y fs ss, goSplit pri 46 = [X, Y] → X ≠ bstr "*" → Y ≠ bstr "*" →
      ParseFacilities X = .ok fs → ParseSeverities Y = .ok ss →
      (ParsePriorityFilter pri).2 = none ∧
      ∃ f, (ParsePriorityFilter pri).1 = some f ∧
        ∀ m, (f m = true ↔ fs.contains m.facility = true ∧ ss.contains m.severity = true)) := by
  refine ⟨?_, ?_, ?_, ?_, ?_⟩
  · intro pri hbad
    by_cases hlen : (goSplit pri 46).length = 2
    · have hcount : pri.count 46 = 1 := by
        have := goSplit_length pri 46
        omega
      rcases hbad with hc | h0 | h1
      · exact absurd hcount hc
      · obtain ⟨X, Y, hXY⟩ : ∃ X Y, goSplit pri 46 = [X, Y] := by
          match h : goSplit pri 46, hlen with
          | [X, Y], _ => exact ⟨X, Y, rfl⟩
        rw [hXY] at h0
        simp at h0
        simp [ParsePriorityFilter, hXY, h0]
      · obtain ⟨X, Y, hXY⟩ : ∃ X Y, goSplit pri 46 = [X, Y] := by
          match h : goSplit pri 46, hlen with
          | [X, Y], _ => exact ⟨X, Y, rfl⟩
        rw [hXY] at h1
        simp at h1
        simp [ParsePriorityFilter, hXY, h1]
    · simp [ParsePriorityFilter, hlen]
  · intro pri X Y e hXY hXstar hfac
    by_cases hX : X = []
    · simp [ParsePriorityFilter, hXY, hX]
    · by_cases hY : Y = []
      · simp [ParsePriorityFilter, hXY, hY]
      · by_cases hYstar : Y = bstr "*"
        · simp [ParsePriorityFilter, hXY, hX, hXstar, hYstar, hfac,
            show (bstr "*" : Bytes) ≠ [] from by decide]
        · simp [ParsePriorityFilter, hXY, hX, hY, hXstar, hYstar, hfac]
          cases hsev : ParseSeverities Y <;> simp [errorsJoin]
  · intro pri X Y e hXY hYstar hsev
    by_cases hX : X = []
    · simp [ParsePriorityFilter, hXY, hX]
    · by_cases hY : Y = []
      · simp [ParsePriorityFilter, hXY, hY]
      · by_cases hXstar : X = bstr "*"
        · simp [ParsePriorityFilter, hXY, hY, hXstar, hYstar, hsev,
            show (bstr "*" : Bytes) ≠ [] from by decide]
        · simp [ParsePriorityFilter, hXY, hX, hY, hXstar, hYstar, hsev]
          cases hfac : ParseFacilities X <;> simp [errorsJoin]
  · refine ⟨rfl, AcceptEverything, rfl, fun m => rfl⟩
  · intro pri X Y fs ss hXY hXstar hYstar hfac hsev
    have hX : X ≠ [] := by
      intro h
      have h2 : ParseFacilities ([] : Bytes) = .error (bstr ": unknown facility") := rfl
      rw [h, h2] at hfac
      exact Except.noConfusion hfac
    have hY : Y ≠ [] := by
      intro h
      have h2 : ParseSeverities ([] : Bytes) = .error (bstr ": unknown severity") := rfl
      rw [h, h2] at hsev
      exact Except.noConfusion hsev
    refine ⟨?_, ?_⟩
    · simp [ParsePriorityFilter, hXY, hX, hY, hXstar, hYstar, hfac, hsev]
    · refine ⟨All [facilitiesFilter fs, severitiesFilter ss], ?_, ?_⟩
      · simp [ParsePriorityFilter, hXY, hX, hY, hXstar, hYstar, hfac, hsev]
      · intro m
        constructor
        · intro h
          by_cases h1 : facilitiesFilter fs m = true
          · by_cases h2 : severitiesFilter ss m = true
            · exact ⟨h1, h2⟩
            · simp [All, h1, h2] at h
          · simp [All, h1] at h
        · intro ⟨h1, h2⟩
          simp [All, facilitiesFilter, severitiesFilter] at h1 h2 ⊢
          simp [h1, h2]

/-- Witness for C6: a shapeless filter, unknown names, the wildcard and a
concrete user.info filter. -/
theorem parsePriorityFilter_spec_witness :
    (ParsePriorityFilter (bstr "*")).2.isSome = true ∧
    (ParsePriorityFilter (bstr "foo.info")).2.isSome = true ∧
    (ParsePriorityFilter (bstr "user.bar")).2.isSome = true ∧
    (ParsePriorityFilter (bstr "*.*")).2 = none ∧
    (ParsePriorityFilter (bstr "user.info")).2 = none := by
  obtain ⟨ha, hb, hc, hd, he⟩ := parsePriorityFilter_spec
  refine ⟨?_, ?_, ?_, hd.1, ?_⟩
  · exact ha (bstr "*") (by decide)
  · exact hb (bstr "foo.info") (bstr "foo") (bstr "info")
      (bstr "foo" ++ bstr ": unknown facility") (by decide) (by decide) rfl
  · exact hc (bstr "user.bar") (bstr "user") (bstr "bar")
      (bstr "bar" ++ bstr ": unknown severity") (by decide) (by decide) rfl
  · exact (he (bstr "user.info") (bstr "user") (bstr "info") [1] [6]
      (by decide) (by decide) (by decide) rfl rfl).1

theorem startsWith_append (p s : Bytes) : startsWith (p ++ s) p = true := by
  induction p with
  | nil => rfl
  | cons b t ih => simpa [startsWith, startsWithAux] using ih

theorem nextSpaceAux_concat (u rest : Bytes) :
    (∀ b ∈ u, 33 ≤ b ∧ b ≤ 126) →
    ∀ i : Nat, nextSpaceAux (u ++ 32 :: rest) i = some ((i : Int) + u.length) := by
  induction u with
  | nil =>
    intro _ i
    simp [nextSpaceAux]
  | cons b t ih =>
    intro hp i
    have hb := hp b (List.mem_cons_self b t)
    simp only [List.cons_append, nextSpaceAux, List.append_eq]
    rw [if_neg (by omega), if_neg (by omega)]
    rw [ih (fun x hx => hp x (List.mem_cons_of_mem b hx)) (i + 1)]
    congr 1
    simp only [List.length_cons]
    push_cast
    ring

/-- nextSpace on a printable token followed by a space finds that space. -/
theorem nextSpace_concat (u rest : Bytes) (hp : ∀ b ∈ u, 33 ≤ b ∧ b ≤ 126) :
    nextSpace (u ++ 32 :: rest) = (u.length : Int) := by
  unfold nextSpace
  rw [nextSpaceAux_concat u rest hp 0]
  simp

/-- C4 general part: after the timestamp, a token TZ±N — N being Atoi-parsable
and in -12..+12 — followed by a space is consumed, and the timestamp is carried
into the fixed zone of N hours (same instant, offset N·3600 seconds). -/
theorem tzAdjust_spec (m : GoMessage) (ds rest : Bytes) (tz : Int)
    (hp : ∀ b ∈ ds, 33 ≤ b ∧ b ≤ 126)
    (ha : goAtoi ds = some tz) (hlo : -12 ≤ tz) (hhi : tz ≤ 12) :
    tzAdjust m (bstr "TZ" ++ ds ++ 32 :: rest) =
      some ({ m with timestamp := m.timestamp.timeIn (tz * 3600) }, rest) := by
  have hTZ : (bstr "TZ" : Bytes) = [84, 90] := by decide
  have hu : ∀ b ∈ (bstr "TZ" ++ ds), 33 ≤ b ∧ b ≤ 126 := by
    intro b hb
    rcases List.mem_append.mp hb with h | h
    · rw [hTZ] at h
      simp at h
      omega
    · exact hp b h
  have hsp : nextSpace (bstr "TZ" ++ ds ++ 32 :: rest) = ((bstr "TZ" ++ ds).length : Int) :=
    nextSpace_concat _ rest hu
  have hlen2 : (bstr "TZ" ++ ds).length = ds.length + 2 := by
    rw [hTZ]
    simp only [List.length_append, List.length_cons, List.length_nil]
    omega
  have hslen : (bstr "TZ" ++ ds ++ 32 :: rest).length = ds.length + 3 + rest.length := by
    rw [hTZ]
    simp only [List.length_append, List.length_cons, List.length_nil]
    omega
  have hstart : startsWith (bstr "TZ" ++ ds ++ 32 :: rest) (bstr "TZ") = true := by
    rw [List.append_assoc]
    exact startsWith_append _ _
  have hslice : slice (bstr "TZ" ++ ds ++ 32 :: rest) 2 ((bstr "TZ" ++ ds).length : Int) = ds := by
    unfold slice
    rw [Int.toNat_ofNat, List.take_left, hTZ]
    rfl
  have hdropR : sliceFrom (bstr "TZ" ++ ds ++ 32 :: rest) (((bstr "TZ" ++ ds).length : Int) + 1) =
      rest := by
    unfold sliceFrom
    rw [show ((((bstr "TZ" ++ ds).length : Int)) + 1).toNat = (bstr "TZ" ++ ds).length + 1 by
      omega]
    rw [← List.drop_drop, List.drop_left]
    rfl
  simp only [tzAdjust, hstart, hsp]
  rw [if_pos trivial]
  rw [if_pos (show (0 : Int) < ((bstr "TZ" ++ ds).length : Int) ∧
      ((bstr "TZ" ++ ds).length : Int) ≤ ((bstr "TZ" ++ ds ++ 32 :: rest).length : Int) by
    rw [hlen2, hslen]
    constructor <;> (push_cast; omega))]
  rw [hslice, ha]
  rw [show tzApply m (some tz) = { m with timestamp := m.timestamp.timeIn (tz * 3600) } from by
    simp [tzApply, hlo, hhi]]
  rw [if_pos (show ((bstr "TZ" ++ ds).length : Int) + 1 ≤
      ((bstr "TZ" ++ ds ++ 32 :: rest).length : Int) by
    rw [hlen2, hslen]
    push_cast
    omega)]
  rw [hdropR]

/-- C4: an RFC 3164 TZ±N token (N in -12..+12) following the timestamp is
consumed and adjusts the timestamp's zone by N hours — the instant is kept and
the offset becomes N·3600 seconds, Go's In() semantics — and on the spec's
concrete input the parse carries the instant 1990-10-22T10:52:01 UTC to offset
-6h with hostname scapegoat.dmz.example.org, application sched and procID 0. -/
theorem rfc3164_tz_spec :
    (∀ (m : GoMessage) (ds rest : Bytes) (tz : Int),
      (∀ b ∈ ds, 33 ≤ b ∧ b ≤ 126) → goAtoi ds = some tz → -12 ≤ tz → tz ≤ 12 →
      tzAdjust m (bstr "TZ" ++ ds ++ 32 :: rest) =
        some ({ m with timestamp := m.timestamp.timeIn (tz * 3600) }, rest)) ∧
    (parseOutOk (parseMessage 100 t0
        (bstr "<0>1990 Oct 22 10:52:01 TZ-6 scapegoat.dmz.example.org sched[0]: That's All Folks!"))).map
        (fun m => (m.facility, m.severity, m.timestamp.epochSec, m.timestamp.offset,
          m.hostname, m.application, m.procID, m.content)) =
      some (0, 0,
        ({ year := 1990, month := 10, day := 22, hour := 10, minute := 52, second := 1,
           nanos := 0, offset := 0 : GoTime }).epochSec, -6 * 3600,
        bstr "scapegoat.dmz.example.org", bstr "sched", bstr "0",
        bstr ": That's All Folks!") := by
  refine ⟨fun m ds rest tz hp ha hlo hhi => tzAdjust_spec m ds rest tz hp ha hlo hhi, ?_⟩
  rfl

/-- Witness for C4 at the token TZ-6. -/
theorem rfc3164_tz_spec_witness :
    tzAdjust (sampleMsg 0 0) (bstr "TZ-6 x") =
      some ({ sampleMsg 0 0 with timestamp := (sampleMsg 0 0).timestamp.timeIn (-6 * 3600) },
        bstr "x") := by
  have h := rfc3164_tz_spec.1 (sampleMsg 0 0) (bstr "-6") (bstr "x") (-6)
    (by decide) (by decide) (by decide) (by decide)
  rw [show bstr "TZ" ++ bstr "-6" ++ 32 :: bstr "x" = (bstr "TZ-6 x" : Bytes) from by decide] at h
  exact h

/-- The escape flag after scanning p, exactly as the source's loop updates it:
a backslash toggles it, every other byte clears it. -/
def escState (p : Bytes) : Bool :=
  p.foldl (fun esc b => if b = 92 then !esc else false) false

/-- Number of backslashes immediately preceding a position. -/
def trailingBackslashes (p : Bytes) : Nat :=
  (p.reverse.takeWhile (fun b => b == 92)).length

/-- The claim's notion: byte c stands at position i and the run of backslashes
immediately before it has even length. -/
def unescapedAt (s : Bytes) (c : Nat) (i : Nat) : Prop :=
  s.get? i = some c ∧ trailingBackslashes (s.take i) % 2 = 0

instance (s : Bytes) (c i : Nat) : Decidable (unescapedAt s c i) := by
  unfold unescapedAt
  infer_instance

/-- The escape flag is set exactly after an odd run of backslashes. -/
theorem escState_eq_parity (p : Bytes) :
    escState p = (trailingBackslashes p % 2 == 1) := by
  induction p using List.reverseRecOn with
  | nil => rfl
  | append_singleton q b ih =>
    have htb : trailingBackslashes (q ++ [b]) =
        (if b == 92 then trailingBackslashes q + 1 else 0) := by
      simp only [trailingBackslashes, List.reverse_append, List.reverse_singleton,
        List.singleton_append, List.takeWhile]
      by_cases hb : b = 92
      · simp [hb]
      · simp [show (b == 92) = false from by simp [hb]]
    have hes : escState (q ++ [b]) = (if b = 92 then !escState q else false) := by
      simp [escState, List.foldl_append]
    rw [hes, htb]
    by_cases hb : b = 92
    · simp only [hb, if_pos rfl, beq_self_eq_true, if_true, ih]
      rcases Nat.mod_two_eq_zero_or_one (trailingBackslashes q) with h | h <;>
        simp [h, Nat.add_mod]
    · simp [hb]

/-- Relative form of unescapedAt used while scanning: the flag starts at esc. -/
def relUnesc (s : Bytes) (esc : Bool) (c : Nat) (j : Nat) : Prop :=
  s.get? j = some c ∧
    (s.take j).foldl (fun e b => if b = 92 then !e else false) esc = false

theorem relUnesc_zero (b : Nat) (t : Bytes) (esc : Bool) (c : Nat) :
    relUnesc (b :: t) esc c 0 ↔ (b = c ∧ esc = false) := by
  unfold relUnesc
  constructor
  · rintro ⟨h1, h2⟩
    have h1' : some b = some c := h1
    exact ⟨Option.some.inj h1', h2⟩
  · rintro ⟨h1, h2⟩
    subst h1
    exact ⟨rfl, h2⟩

theorem relUnesc_succ (b : Nat) (t : Bytes) (esc : Bool) (c : Nat) (j : Nat) :
    relUnesc (b :: t) esc c (j + 1) ↔ relUnesc t (if b = 92 then !esc else false) c j := by
  simp [relUnesc, List.take_succ_cons]

/-- Worker characterisation: indexRuneAux returns i plus the least index (from
the current flag) carrying an unescaped c, or -1 when there is none. -/
theorem indexRuneAux_spec (c : Nat) (hc : c ≠ 92) :
    ∀ (s : Bytes) (esc : Bool) (i : Nat),
      (indexRuneAux c s esc i = -1 ∧ ∀ j, ¬ relUnesc s esc c j) ∨
      (∃ k : Nat, indexRuneAux c s esc i = ((i + k : Nat) : Int) ∧ relUnesc s esc c k ∧
        ∀ j < k, ¬ relUnesc s esc c j) := by
  intro s
  induction s with
  | nil =>
    intro esc i
    left
    refine ⟨rfl, fun j => ?_⟩
    simp [relUnesc]
  | cons b t ih =>
    intro esc i
    by_cases hb : b = 92
    · subst hb
      have hbc : (92 : Nat) ≠ c := fun h => hc h.symm
      rcases ih (!esc) (i + 1) with ⟨h1, h2⟩ | ⟨k, h1, h2, h3⟩
      · left
        refine ⟨?_, ?_⟩
        · simpa [indexRuneAux, hbc] using h1
        · intro j
          cases j with
          | zero => simp [relUnesc_zero, hbc]
          | succ j' => simpa [relUnesc_succ] using h2 j'
      · right
        refine ⟨k + 1, ?_, ?_, ?_⟩
        · rw [show indexRuneAux c (92 :: t) esc i = indexRuneAux c t (!esc) (i + 1) from rfl]
          rw [h1]
          congr 1
          omega
        · simpa [relUnesc_succ] using h2
        · intro j hj
          cases j with
          | zero => simp [relUnesc_zero, hbc]
          | succ j' =>
            rw [relUnesc_succ]
            simpa using h3 j' (by omega)
    · by_cases hbc : b = c
      · subst hbc
        cases hesc : esc with
        | false =>
          right
          refine ⟨0, ?_, ?_, ?_⟩
          · simp [indexRuneAux, hb]
          · rw [relUnesc_zero]
            exact ⟨rfl, rfl⟩
          · intro j hj
            omega
        | true =>
          rcases ih false (i + 1) with ⟨h1, h2⟩ | ⟨k, h1, h2, h3⟩
          · left
            refine ⟨?_, ?_⟩
            · simpa [indexRuneAux, hb] using h1
            · intro j
              cases j with
              | zero => simp [relUnesc_zero]
              | succ j' => simpa [relUnesc_succ, hb] using h2 j'
          · right
            have hstep : indexRuneAux b (b :: t) true i = indexRuneAux b t false (i + 1) := by
              simp [indexRuneAux, hb]
            refine ⟨k + 1, ?_, ?_, ?_⟩
            · rw [hstep, h1]
              congr 1
              omega
            · simpa [relUnesc_succ, hb] using h2
            · intro j hj
              cases j with
              | zero => simp [relUnesc_zero]
              | succ j' =>
                rw [relUnesc_succ]
                simpa [hb] using h3 j' (by omega)
      · rcases ih false (i + 1) with ⟨h1, h2⟩ | ⟨k, h1, h2, h3⟩
        · left
          refine ⟨?_, ?_⟩
          · simpa [indexRuneAux, hb, hbc] using h1
          · intro j
            cases j with
            | zero => simp [relUnesc_zero, hbc]
            | succ j' => simpa [relUnesc_succ, hb] using h2 j'
        · right
          have hstep : indexRuneAux c (b :: t) esc i = indexRuneAux c t false (i + 1) := by
            simp [indexRuneAux, hb, hbc]
          refine ⟨k + 1, ?_, ?_, ?_⟩
          · rw [hstep, h1]
            congr 1
            omega
          · simpa [relUnesc_succ, hb] using h2
          · intro j hj
            cases j with
            | zero => simp [relUnesc_zero, hbc]
            | succ j' =>
              rw [relUnesc_succ]
              simpa [hb] using h3 j' (by omega)

theorem relUnesc_false_iff (s : Bytes) (c : Nat) (j : Nat) :
    relUnesc s false c j ↔ unescapedAt s c j := by
  unfold relUnesc unescapedAt
  have : (s.take j).foldl (fun e b => if b = 92 then !e else false) false =
      escState (s.take j) := rfl
  rw [this, escState_eq_parity]
  constructor
  · rintro ⟨h1, h2⟩
    refine ⟨h1, ?_⟩
    rcases Nat.mod_two_eq_zero_or_one (trailingBackslashes (s.take j)) with h | h
    · exact h
    · rw [h] at h2
      simp at h2
  · rintro ⟨h1, h2⟩
    refine ⟨h1, ?_⟩
    simp [h2]

/-- indexRune skips exactly the c's preceded by an odd run of backslashes: it
returns the least position holding c after an even run, and -1 when no position
does. -/
theorem indexRune_spec (s : Bytes) (c : Nat) (hc : c ≠ 92) :
    (indexRune s c = -1 ∧ ∀ j, ¬ unescapedAt s c j) ∨
    (∃ k : Nat, indexRune s c = (k : Int) ∧ unescapedAt s c k ∧
      ∀ j < k, ¬ unescapedAt s c j) := by
  rcases indexRuneAux_spec c hc s false 0 with ⟨h1, h2⟩ | ⟨k, h1, h2, h3⟩
  · left
    refine ⟨h1, fun j => ?_⟩
    rw [← relUnesc_false_iff]
    exact h2 j
  · right
    refine ⟨k, ?_, ?_, ?_⟩
    · simpa using h1
    · rw [← relUnesc_false_iff]
      exact h2
    · intro j hj
      rw [← relUnesc_false_iff]
      exact h3 j hj

/-- C3 (amended): the RFC 3164 remainder split.  Content is everything from the
first colon not preceded by an odd run of backslashes on (leading colon kept);
the prefix before it splits on spaces, the first word becoming the hostname; the
last word becomes the application only when the prefix holds at least two words,
an app[pid]-shaped last word splitting into application and procID; with no such
colon the entire remainder becomes the content and every other field is left as
it was. -/
theorem rfc3164Rest_spec (m : GoMessage) (s : Bytes) :
    ((∀ j, ¬ unescapedAt s 58 j) →
      rfc3164Rest m s = { m with content := s }) ∧
    (∀ i, unescapedAt s 58 i → (∀ j < i, ¬ unescapedAt s 58 j) →
      (rfc3164Rest m s).content = s.drop i ∧
      (rfc3164Rest m s).hostname = (goSplit (s.take i) 32).headD [] ∧
      ((goSplit (s.take i) 32).length ≤ 1 →
        (rfc3164Rest m s).application = m.application ∧
        (rfc3164Rest m s).procID = m.procID) ∧
      (1 < (goSplit (s.take i) 32).length →
        ((endsWithByte ((goSplit (s.take i) 32).getLast?.getD []) 93 = true ∧
            0 < indexByte ((goSplit (s.take i) 32).getLast?.getD []) 91) →
          (rfc3164Rest m s).application =
            sliceTo ((goSplit (s.take i) 32).getLast?.getD [])
              (indexByte ((goSplit (s.take i) 32).getLast?.getD []) 91) ∧
          (rfc3164Rest m s).procID =
            slice ((goSplit (s.take i) 32).getLast?.getD [])
              (indexByte ((goSplit (s.take i) 32).getLast?.getD []) 91 + 1)
              ((((goSplit (s.take i) 32).getLast?.getD []).length : Int) - 1)) ∧
        (¬(endsWithByte ((goSplit (s.take i) 32).getLast?.getD []) 93 = true ∧
            0 < indexByte ((goSplit (s.take i) 32).getLast?.getD []) 91) →
          (rfc3164Rest m s).application = (goSplit (s.take i) 32).getLast?.getD [] ∧
          (rfc3164Rest m s).procID = m.procID))) := by
  have hc58 : (58 : Nat) ≠ 92 := by decide
  constructor
  · intro hno
    rcases indexRune_spec s 58 hc58 with ⟨h1, _⟩ | ⟨k, h1, h2, _⟩
    · simp [rfc3164Rest, h1]
    · exact absurd h2 (hno k)
  · intro i hi hmin
    rcases indexRune_spec s 58 hc58 with ⟨_, h2⟩ | ⟨k, h1, h2, h3⟩
    · exact absurd hi (h2 i)
    · have hik : i = k := by
        rcases lt_trichotomy i k with h | h | h
        · exact absurd hi (h3 i h)
        · exact h
        · exact absurd h2 (hmin k h)
      subst hik
      have hif : ¬ ((i : Int) < 0) := by omega
      have hsf : sliceFrom s (i : Int) = s.drop i := by
        simp [sliceFrom]
      have hst : sliceTo s (i : Int) = s.take i := by
        simp [sliceTo]
      obtain ⟨w, ws, hw⟩ := List.exists_cons_of_ne_nil (goSplit_ne_nil (s.take i) 32)
      cases ws with
      | nil =>
        refine ⟨?_, ?_, ?_, ?_⟩
        · simp [rfc3164Rest, h1, hif, hsf, hst, hw]
        · simp [rfc3164Rest, h1, hif, hsf, hst, hw]
        · intro _
          refine ⟨?_, ?_⟩ <;> simp [rfc3164Rest, h1, hif, hsf, hst, hw]
        · intro hlen
          rw [hw] at hlen
          simp at hlen
      | cons v vs =>
        have hgl : (goSplit (s.take i) 32).getLast?.getD [] = (v :: vs).getLast?.getD [] := by
          rw [hw, List.getLast?_cons_cons]
        have hlen2 : (w :: v :: vs).length > 1 := by
          simp only [List.length_cons]
          omega
        refine ⟨?_, ?_, ?_, ?_⟩
        · simp only [rfc3164Rest, h1, hif, if_false, hsf, hst, hw]
          split_ifs <;> rfl
        · simp only [rfc3164Rest, h1, hif, if_false, hsf, hst, hw]
          split_ifs <;> rfl
        · intro hle
          rw [hw] at hle
          simp at hle
        · intro _
          rw [hgl]
          constructor
          · rintro ⟨he, hl⟩
            refine ⟨?_, ?_⟩ <;>
            · simp only [rfc3164Rest, h1, hif, if_false, hsf, hst, hw, List.head?_cons,
                List.getLast?_cons_cons, if_pos hlen2]
              split_ifs
              rfl
          · intro hne
            by_cases he : endsWithByte ((v :: vs).getLast?.getD []) 93 = true
            · have hl : ¬ 0 < indexByte ((v :: vs).getLast?.getD []) 91 := fun hl =>
                hne ⟨he, hl⟩
              refine ⟨?_, ?_⟩ <;>
              · simp only [rfc3164Rest, h1, hif, if_false, hsf, hst, hw, List.head?_cons,
                  List.getLast?_cons_cons, if_pos hlen2]
                split_ifs
                rfl
            · refine ⟨?_, ?_⟩ <;>
              · simp only [rfc3164Rest, h1, hif, if_false, hsf, hst, hw, List.head?_cons,
                  List.getLast?_cons_cons, if_pos hlen2]
                split_ifs
                rfl

/-- C3 counterexample: a single-word prefix.  On "<13>host: msg" the parser sets
the hostname to the only word "host" and leaves the application empty, while the
claim also makes the last word — that same "host" — the application. -/
theorem rfc3164_single_word_counterexample :
    (parseOutOk (parseMessage 100 t0 (bstr "<13>host: msg"))).map
        (fun m => (m.hostname, m.application)) = some (bstr "host", []) ∧
    (bstr "host" : Bytes) ≠ [] := by
  constructor
  · rfl
  · decide

/-- Witness for C3 at the remainder "myhost sched[0]: body". -/
theorem rfc3164Rest_spec_witness :
    (rfc3164Rest (sampleMsg 1 5) (bstr "myhost sched[0]: body")).content = bstr ": body" ∧
    (rfc3164Rest (sampleMsg 1 5) (bstr "myhost sched[0]: body")).hostname = bstr "myhost" ∧
    (rfc3164Rest (sampleMsg 1 5) (bstr "myhost sched[0]: body")).application = bstr "sched" ∧
    (rfc3164Rest (sampleMsg 1 5) (bstr "myhost sched[0]: body")).procID = bstr "0" := by
  have h := (rfc3164Rest_spec (sampleMsg 1 5) (bstr "myhost sched[0]: body")).2 15
    (by decide) (by decide)
  obtain ⟨hc, hh, _, happ⟩ := h
  obtain ⟨ha, hp⟩ := (happ (by decide)).1 (by decide)
  refine ⟨?_, ?_, ?_, ?_⟩
  · rw [hc]; decide
  · rw [hh]; decide
  · rw [ha]; decide
  · rw [hp]; decide

theorem indexByte_not_mem (s : Bytes) (c : Nat) (h : c ∉ s) : indexByte s c = -1 := by
  induction s with
  | nil => rfl
  | cons b t ih =>
    have hb : b ≠ c := fun e => h (e ▸ List.mem_cons_self b t)
    have ht : c ∉ t := fun e => h (List.mem_cons_of_mem b e)
    simp [indexByte, hb, ih ht]

theorem indexByte_append_first (pre rest : Bytes) (c : Nat) (h : c ∉ pre) :
    indexByte (pre ++ c :: rest) c = (pre.length : Int) := by
  induction pre with
  | nil => simp [indexByte]
  | cons b t ih =>
    have hb : b ≠ c := fun e => h (e ▸ List.mem_cons_self b t)
    have ht : c ∉ t := fun e => h (List.mem_cons_of_mem b e)
    have hr := ih ht
    simp only [List.cons_append, indexByte, List.append_eq, hb, if_false, hr]
    rw [if_neg (by omega)]
    simp only [List.length_cons]
    push_cast
    ring

theorem indexRuneAux_not_mem (s : Bytes) (c : Nat) (h : c ∉ s) :
    ∀ esc i, indexRuneAux c s esc i = -1 := by
  induction s with
  | nil => intro esc i; rfl
  | cons b t ih =>
    intro esc i
    have hb : b ≠ c := fun e => h (e ▸ List.mem_cons_self b t)
    have ht : c ∉ t := fun e => h (List.mem_cons_of_mem b e)
    by_cases h92 : b = 92
    · simp [indexRuneAux, h92, hb, ih ht, (h92 ▸ hb : (92 : Nat) ≠ c).symm]
    · simp [indexRuneAux, h92, hb, ih ht]

theorem indexRune_not_mem (s : Bytes) (c : Nat) (h : c ∉ s) : indexRune s c = -1 :=
  indexRuneAux_not_mem s c h false 0

theorem indexRuneAux_append_first (pre rest : Bytes) (c : Nat) (hc92 : c ≠ 92)
    (hc : c ∉ pre) (hesc : (92 : Nat) ∉ pre) :
    ∀ i, indexRuneAux c (pre ++ c :: rest) false i = ((i + pre.length : Nat) : Int) := by
  induction pre with
  | nil =>
    intro i
    simp [indexRuneAux, hc92]
  | cons b t ih =>
    intro i
    have hb : b ≠ c := fun e => hc (e ▸ List.mem_cons_self b t)
    have h92 : b ≠ 92 := fun e => hesc (e ▸ List.mem_cons_self b t)
    have ht : c ∉ t := fun e => hc (List.mem_cons_of_mem b e)
    have ht92 : (92 : Nat) ∉ t := fun e => hesc (List.mem_cons_of_mem b e)
    have hr := ih ht ht92 (i + 1)
    simp only [List.cons_append, indexRuneAux, List.append_eq, h92, if_false, hb, hr]
    congr 1
    simp only [List.length_cons]
    omega

theorem indexRune_append_first (pre rest : Bytes) (c : Nat) (hc92 : c ≠ 92)
    (hc : c ∉ pre) (hesc : (92 : Nat) ∉ pre) :
    indexRune (pre ++ c :: rest) c = (pre.length : Int) := by
  have h := indexRuneAux_append_first pre rest c hc92 hc hesc 0
  simpa using h

theorem dropWhile_eq_self_of_none (p : Nat → Bool) (l : Bytes)
    (h : ∀ b ∈ l, p b = false) : l.dropWhile p = l := by
  cases l with
  | nil => rfl
  | cons b t => simp [List.dropWhile, h b (List.mem_cons_self b t)]

/-- Trailing trim is the identity on byte strings free of NUL, CR and LF. -/
theorem trimRight_id (s : Bytes) (h : ∀ b ∈ s, isNulCrLf b = false) :
    trimRightNulCrLf s = s := by
  unfold trimRightNulCrLf
  rw [dropWhile_eq_self_of_none _ _ (fun b hb => h b (List.mem_reverse.mp hb))]
  exact List.reverse_reverse s

/-- findBOM reports no byte-order mark on 0xEF-free input. -/
theorem findBOM_none (s : Bytes) (h : (0xEF : Nat) ∉ s) : findBOM s = some (-1) := by
  unfold findBOM
  rw [indexByte_not_mem s 0xEF h]
  rfl

/-- Decimal renderings of the combined priorities: one to three digit bytes that
Atoi reads back. -/
theorem natRepr_priority_facts :
    ∀ p < 192, (∀ d ∈ natRepr p, 48 ≤ d ∧ d ≤ 57) ∧
      1 ≤ (natRepr p).length ∧ (natRepr p).length ≤ 3 ∧
      goAtoi (natRepr p) = some (p : Int) := by decide

/-- Decoding the combined priority recovers facility and severity. -/
theorem priority_decode_facts :
    ∀ f < 24, ∀ s < 8,
      ((((f <<< 3 ||| s : Nat) : Int).emod 8).toNat = s ∧
       ((((f <<< 3 ||| s : Nat) : Int).fdiv 8).emod 256).toNat = f ∧
       (f <<< 3 ||| s : Nat) < 192) := by decide


theorem digit2Val_pad2 (n : Nat) (h : n ≤ 99) :
    digit2Val (48 + n / 10 % 10) (48 + n % 10) = some n := by
  have h1 : isDigitByte (48 + n / 10 % 10) = true := by
    simp [isDigitByte, Nat.ble_eq]
    omega
  have h2 : isDigitByte (48 + n % 10) = true := by
    simp [isDigitByte, Nat.ble_eq]
    omega
  simp [digit2Val, h1, h2]
  omega

theorem iso8601_roundtrip (t : GoTime) (h : WFTime t) :
    iso8601Parse t.formatRFC3339 = some t := by
  obtain ⟨hy1, hy2, hm1, hm2, hd1, hd2, hh, hmin, hsec, hn, hoffm, hofflo, hoffhi⟩ := h
  simp only [GoTime.formatRFC3339, pad4, pad2, List.cons_append, List.nil_append]
  have hdig : ∀ x : Nat, isDigitByte (48 + x % 10) = true := by
    intro x
    simp [isDigitByte, Nat.ble_eq]
    omega
  have hyNat : t.year.toNat ≤ 9999 := by omega
  by_cases hz : t.offset = 0
  · simp only [hz, if_pos rfl, if_true]
    simp only [iso8601Parse]
    rw [if_pos ⟨hdig _, hdig _, hdig _, hdig _⟩]
    rw [digit2Val_pad2 t.month (by omega), digit2Val_pad2 t.day (by omega),
        digit2Val_pad2 t.hour (by omega), digit2Val_pad2 t.minute (by omega),
        digit2Val_pad2 t.second (by omega)]
    rw [show iso8601Zone [90] = some 0 from rfl]
    simp only [Option.some_bind, Option.map_some']
    rw [if_pos ⟨hm1, hm2, hd1, hd2, hh, hmin, hsec⟩]
    simp only [Option.some.injEq, GoTime.mk.injEq]
    rw [show (48 + t.year.toNat / 1000 % 10 - 48) * 1000 + (48 + t.year.toNat / 100 % 10 - 48) * 100 +
          (48 + t.year.toNat / 10 % 10 - 48) * 10 + (48 + t.year.toNat % 10 - 48) = t.year.toNat from by
      omega]
    obtain ⟨yr, mo, da, ho, mi, se, na, off⟩ := t
    simp only [GoTime.mk.injEq, true_and, and_true] at *
    omega
  · by_cases hsign : t.offset < 0
    · simp only [hz, if_false, hsign, if_true, List.cons_append, List.nil_append]
      simp only [iso8601Parse]
      rw [if_pos ⟨hdig _, hdig _, hdig _, hdig _⟩]
      rw [digit2Val_pad2 t.month (by omega), digit2Val_pad2 t.day (by omega),
          digit2Val_pad2 t.hour (by omega), digit2Val_pad2 t.minute (by omega),
          digit2Val_pad2 t.second (by omega)]
      rw [show ∀ a b c d, iso8601Zone (45 :: a :: b :: 58 :: c :: d :: []) =
            (digit2Val a b).bind fun hv => (digit2Val c d).bind fun mv =>
              if hv ≤ 23 ∧ mv ≤ 59 then some (-((hv : Int) * 3600 + (mv : Int) * 60)) else none
          from ?_]
      · rw [digit2Val_pad2 (t.offset.natAbs / 60 / 60) (by omega),
            digit2Val_pad2 (t.offset.natAbs / 60 % 60) (by omega)]
        simp only [Option.some_bind, Option.map_some']
        rw [if_pos (by constructor <;> omega)]
        simp only [Option.map_some', Option.some_bind]
        rw [if_pos ⟨hm1, hm2, hd1, hd2, hh, hmin, hsec⟩]
        simp only [Option.some.injEq, GoTime.mk.injEq]
        rw [show (48 + t.year.toNat / 1000 % 10 - 48) * 1000 + (48 + t.year.toNat / 100 % 10 - 48) * 100 +
              (48 + t.year.toNat / 10 % 10 - 48) * 10 + (48 + t.year.toNat % 10 - 48) = t.year.toNat from by
          omega]
        obtain ⟨yr, mo, da, ho, mi, se, na, off⟩ := t
        simp only [GoTime.mk.injEq, true_and, and_true] at *
        omega
      · intro a b c d
        simp only [iso8601Zone]
        cases hab : digit2Val a b with
        | none => rfl
        | some hv =>
          cases hcd : digit2Val c d with
          | none => rfl
          | some mv =>
            simp only [Option.some_bind]
            split_ifs <;> first | rfl | (exfalso ; omega)
    · have hpos : 0 < t.offset := by omega
      simp only [hz, if_false, hsign, if_true, List.cons_append, List.nil_append]
      simp only [iso8601Parse]
      rw [if_pos ⟨hdig _, hdig _, hdig _, hdig _⟩]
      rw [digit2Val_pad2 t.month (by omega), digit2Val_pad2 t.day (by omega),
          digit2Val_pad2 t.hour (by omega), digit2Val_pad2 t.minute (by omega),
          digit2Val_pad2 t.second (by omega)]
      rw [show ∀ a b c d, iso8601Zone (43 :: a :: b :: 58 :: c :: d :: []) =
            (digit2Val a b).bind fun hv => (digit2Val c d).bind fun mv =>
              if hv ≤ 23 ∧ mv ≤ 59 then some ((hv : Int) * 3600 + (mv : Int) * 60) else none
          from ?_]
      · rw [digit2Val_pad2 (t.offset.natAbs / 60 / 60) (by omega),
            digit2Val_pad2 (t.offset.natAbs / 60 % 60) (by omega)]
        simp only [Option.some_bind, Option.map_some']
        rw [if_pos (by constructor <;> omega)]
        simp only [Option.map_some', Option.some_bind]
        rw [if_pos ⟨hm1, hm2, hd1, hd2, hh, hmin, hsec⟩]
        simp only [Option.some.injEq, GoTime.mk.injEq]
        rw [show (48 + t.year.toNat / 1000 % 10 - 48) * 1000 + (48 + t.year.toNat / 100 % 10 - 48) * 100 +
              (48 + t.year.toNat / 10 % 10 - 48) * 10 + (48 + t.year.toNat % 10 - 48) = t.year.toNat from by
          omega]
        obtain ⟨yr, mo, da, ho, mi, se, na, off⟩ := t
        simp only [GoTime.mk.injEq, true_and, and_true] at *
        omega
      · intro a b c d
        simp only [iso8601Zone]
        cases hab : digit2Val a b with
        | none => rfl
        | some hv =>
          cases hcd : digit2Val c d with
          | none => rfl
          | some mv =>
            simp only [Option.some_bind]
            split_ifs <;> first | rfl | (exfalso ; omega)

theorem take_append_len (p q : Bytes) (k : Nat) :
    (p ++ q).take (p.length + k) = p ++ q.take k := by
  simp [List.take_append]

theorem drop_append_len (p q : Bytes) (k : Nat) :
    (p ++ q).drop (p.length + k) = q.drop k := by
  simp [List.drop_append]

theorem startsWith_cons_false (b c : Nat) (t p : Bytes) (h : b ≠ c) :
    startsWith (b :: t) (c :: p) = false := by
  simp [startsWith, startsWithAux, h]

theorem startsWith_cons_cons (b : Nat) (t p : Bytes) :
    startsWith (b :: t) (b :: p) = startsWith t p := by
  simp [startsWith, startsWithAux]

theorem pad2_mem (n : Nat) : ∀ b ∈ pad2 n, 48 ≤ b ∧ b ≤ 57 := by
  intro b hb
  simp [pad2] at hb
  omega

theorem pad4_mem (n : Nat) : ∀ b ∈ pad4 n, 48 ≤ b ∧ b ≤ 57 := by
  intro b hb
  simp [pad4] at hb
  omega

/-- Every byte of a formatted RFC 3339 timestamp is printable ASCII above space. -/
theorem formatRFC3339_mem (t : GoTime) : ∀ b ∈ t.formatRFC3339, 33 ≤ b ∧ b ≤ 126 := by
  have hz : ∀ b ∈ (if t.offset = 0 then ([90] : Bytes) else
      (if t.offset < 0 then [45] else [43]) ++ (pad2 (t.offset.natAbs / 60 / 60) ++
        ([58] ++ pad2 (t.offset.natAbs / 60 % 60)))), 33 ≤ b ∧ b ≤ 126 := by
    intro b hb
    split_ifs at hb with h1 h2 <;> simp [pad2] at hb <;> omega
  intro b hb
  simp only [GoTime.formatRFC3339, List.append_assoc, List.mem_append, List.mem_cons,
    List.not_mem_nil, or_false] at hb
  rcases hb with h | h | h | h | h | h | h | h | h | h | h | h <;>
    first
      | omega
      | (have hx9 := pad4_mem _ b h; omega)
      | (have hx9 := pad2_mem _ b h; omega)
      | exact hz b h

/-- The priority stage on a rendered priority header consumes it and returns the
priority value. -/
theorem priorityStage_concat (p : Nat) (hp : p < 192) (rest : Bytes) :
    priorityStage ((60 : Nat) :: (natRepr p ++ 62 :: rest)) = some (.ok ((p : Int), rest)) := by
  obtain ⟨hdig, hl1, hl3, hatoi⟩ := natRepr_priority_facts p hp
  have h62 : (62 : Nat) ∉ natRepr p := fun hm => by have := hdig 62 hm; omega
  have hidx : indexByte (natRepr p ++ 62 :: rest) 62 = ((natRepr p).length : Int) :=
    indexByte_append_first _ _ _ h62
  have hd : (((60:Nat) :: (natRepr p ++ 62 :: rest)).drop 1) = natRepr p ++ 62 :: rest := rfl
  have hslice : slice ((60:Nat) :: (natRepr p ++ 62 :: rest)) 1
      (1 + ((natRepr p).length : Int)) = natRepr p := by
    unfold slice
    rw [show (1 + ((natRepr p).length : Int)).toNat = (natRepr p).length + 1 from by omega]
    rw [List.take_succ_cons, List.take_left]
    rfl
  have hsf : sliceFrom ((60:Nat) :: (natRepr p ++ 62 :: rest))
      (1 + ((natRepr p).length : Int) + 1) = rest := by
    unfold sliceFrom
    rw [show (1 + ((natRepr p).length : Int) + 1).toNat = (natRepr p).length + 2 from by omega]
    rw [show ((natRepr p).length + 2) = Nat.succ ((natRepr p).length + 1) from rfl,
      List.drop_succ_cons]
    rw [show (natRepr p).length + 1 = (natRepr p).length + 1 from rfl]
    rw [drop_append_len (natRepr p) (62 :: rest) 1]
    rfl
  simp only [priorityStage, hd, hidx, if_true]
  rw [if_pos (by constructor <;> omega : (1 : Int) < 1 + ((natRepr p).length : Int) ∧
    1 + ((natRepr p).length : Int) < 5)]
  rw [hslice, hatoi, hsf]

/-- The RFC 5424 timestamp stage on a rendered timestamp followed by a space
restores the timestamp and hands over the rest. -/
theorem ts5424_concat (m : GoMessage) (t : GoTime) (hwf : WFTime t) (rest : Bytes) :
    ts5424Stage m (t.formatRFC3339 ++ 32 :: rest) = ({ m with timestamp := t }, rest) := by
  have h32 : (32 : Nat) ∉ t.formatRFC3339 := fun hm => by
    have := formatRFC3339_mem t 32 hm
    omega
  have hidx : indexByte (t.formatRFC3339 ++ 32 :: rest) 32 = (t.formatRFC3339.length : Int) :=
    indexByte_append_first _ _ _ h32
  have hto : sliceTo (t.formatRFC3339 ++ 32 :: rest) ((t.formatRFC3339.length : Int)) =
      t.formatRFC3339 := by
    unfold sliceTo
    rw [Int.toNat_ofNat, List.take_left]
  have hfrom : sliceFrom (t.formatRFC3339 ++ 32 :: rest) ((t.formatRFC3339.length : Int) + 1) =
      rest := by
    unfold sliceFrom
    rw [show ((t.formatRFC3339.length : Int) + 1).toNat = t.formatRFC3339.length + 1 from by
      omega]
    rw [drop_append_len t.formatRFC3339 (32 :: rest) 1]
    rfl
  have hcons : t.formatRFC3339 = (48 + t.year.toNat / 1000 % 10) ::
      (pad4 t.year.toNat).tail ++ t.formatRFC3339.drop 4 := by
    simp only [GoTime.formatRFC3339, pad4, List.cons_append]
    rfl
  have hsw : startsWith (t.formatRFC3339 ++ 32 :: rest) (bstr "- ") = false := by
    rw [show (bstr "- ") = [45, 32] from by decide, hcons, List.cons_append]
    exact startsWith_cons_false _ _ _ _ (by omega)
  simp only [ts5424Stage, hsw, Bool.false_eq_true, if_false, hidx]
  rw [if_pos (show (t.formatRFC3339.length : Int) ≥ 0 from by omega)]
  rw [hto, iso8601_roundtrip t hwf, hfrom]

/-- nextField on a well-formed field followed by a space consumes the field. -/
theorem nextField_concat (f rest : Bytes) (hne : f ≠ [])
    (hb : ∀ b ∈ f, 33 ≤ b ∧ b ≤ 126) (h91 : f.head? ≠ some 91) :
    nextField (f ++ 32 :: rest) = some (some f, rest) := by
  by_cases hdash : f = [45]
  · subst hdash
    have hsw : startsWith ([45] ++ 32 :: rest) (bstr "- ") = true := by
      rw [show (bstr "- ") = [45, 32] from by decide]
      simp [startsWith, startsWithAux]
    simp only [nextField, hsw, if_true]
    rfl
  · have hsw : startsWith (f ++ 32 :: rest) (bstr "- ") = false := by
      rw [show (bstr "- ") = [45, 32] from by decide]
      rcases f with _ | ⟨b, tl⟩
      · exact absurd rfl hne
      rcases tl with _ | ⟨b2, tl2⟩
      · have hbne : b ≠ 45 := fun he => hdash (by rw [he])
        rw [List.cons_append]
        exact startsWith_cons_false _ _ _ _ hbne
      · by_cases hb45 : b = 45
        · subst hb45
          have h2 : b2 ≠ 32 := by
            have := hb b2 (by simp)
            omega
          rw [List.cons_append, startsWith_cons_cons]
          exact startsWith_cons_false _ _ _ _ h2
        · rw [List.cons_append]
          exact startsWith_cons_false _ _ _ _ hb45
    have hsp : nextSpace (f ++ 32 :: rest) = (f.length : Int) := nextSpace_concat f rest hb
    have hlen : (f ++ 32 :: rest).length = f.length + 1 + rest.length := by
      simp
      omega
    have hflen : 1 ≤ f.length := by
      rcases f with _ | _
      · exact absurd rfl hne
      · simp
    have hhead : (f ++ 32 :: rest).head? ≠ some 91 := by
      rcases f with _ | ⟨b, tl⟩
      · exact absurd rfl hne
      · simpa using h91
    have hto : sliceTo (f ++ 32 :: rest) ((f.length : Int)) = f := by
      unfold sliceTo
      rw [Int.toNat_ofNat, List.take_left]
    have hfrom : sliceFrom (f ++ 32 :: rest) ((f.length : Int) + 1) = rest := by
      unfold sliceFrom
      rw [show ((f.length : Int) + 1).toNat = f.length + 1 from by omega]
      rw [drop_append_len f (32 :: rest) 1]
      rfl
    simp only [nextField, hsw, Bool.false_eq_true, if_false, hsp]
    rw [if_pos (show (0 : Int) < (f.length : Int) ∧ (f.length : Int) ≤
      (((f ++ 32 :: rest).length : Nat) : Int) ∧ (f ++ 32 :: rest).head? ≠ some 91 from
      ⟨by omega, by rw [hlen]; push_cast; omega, hhead⟩)]
    rw [if_pos (show (f.length : Int) + 1 ≤ (((f ++ 32 :: rest).length : Nat) : Int) from by
      rw [hlen]; push_cast; omega)]
    rw [hto, hfrom]

/-- The four field stages on a rendering of four well-formed fields. -/
theorem fields5424_concat (m : GoMessage) (f1 f2 f3 f4 rest : Bytes)
    (h1 : FieldWF f1) (h2 : FieldWF f2) (h3 : FieldWF f3) (h4 : FieldWF f4) :
    fields5424Stage m (f1 ++ 32 :: (f2 ++ 32 :: (f3 ++ 32 :: (f4 ++ 32 :: rest)))) =
      some ({ m with hostname := f1, application := f2, procID := f3, msgID := f4 }, rest) := by
  simp only [fields5424Stage, fieldStep,
    nextField_concat f1 _ h1.1 h1.2.2 h1.2.1,
    nextField_concat f2 _ h2.1 h2.2.2 h2.2.1,
    nextField_concat f3 _ h3.1 h3.2.2 h3.2.1,
    nextField_concat f4 _ h4.1 h4.2.2 h4.2.1,
    Option.map_some', Option.some_bind, setHostname, setApplication, setProcID, setMsgID]

/-- Invariant of the structured-data loop: with the scan index on the closing
bracket of the blocks read so far, the loop walks the remaining blocks and
returns all of them together with the text after the separating space. -/
theorem sdLoop_inv (bs2 : List Bytes) : ∀ (Q c dat : Bytes) (fuel : Nat),
    Q ≠ [] →
    (∀ i ∈ bs2, ∀ b ∈ i, b ≠ 92 ∧ b ≠ 93) →
    (91 : Nat) ∉ c → (93 : Nat) ∉ c →
    bs2.length + 2 ≤ fuel →
    sdLoop fuel dat (Q ++ 93 :: (sdConcat bs2 ++ 32 :: c)) ((Q.length : Int)) =
      some (Q ++ 93 :: sdConcat bs2, c) := by
  induction bs2 with
  | nil =>
    intro Q c dat fuel hQ hbs h91 h93 hfuel
    obtain ⟨f1, rfl⟩ : ∃ f1, fuel = f1 + 1 := ⟨fuel - 1, by omega⟩
    obtain ⟨f2, rfl⟩ : ∃ f2, f1 = f2 + 1 := ⟨f1 - 1, by omega⟩
    simp only [sdConcat, List.nil_append, List.append_nil]
    have hQlen : 1 ≤ Q.length := by
      rcases Q with _ | _
      · exact absurd rfl hQ
      · simp
    have hlen : (Q ++ 93 :: 32 :: c).length = Q.length + 2 + c.length := by
      simp
      omega
    have hdrop : sliceFrom (Q ++ 93 :: 32 :: c) ((Q.length : Int)) = 93 :: 32 :: c := by
      unfold sliceFrom
      rw [Int.toNat_ofNat, List.drop_left]
    have hl : indexRune (93 :: 32 :: c) 91 = -1 :=
      indexRune_not_mem _ _ (by simpa using h91)
    have htake : sliceTo (Q ++ 93 :: 32 :: c) ((Q.length : Int) + 1) = Q ++ [93] := by
      unfold sliceTo
      rw [show ((Q.length : Int) + 1).toNat = Q.length + 1 from by omega]
      rw [take_append_len Q (93 :: 32 :: c) 1]
      rfl
    have hdrop2 : sliceFrom (Q ++ 93 :: 32 :: c) ((Q.length : Int) + 1 + 1) = c := by
      unfold sliceFrom
      rw [show ((Q.length : Int) + 1 + 1).toNat = Q.length + 2 from by omega]
      rw [drop_append_len Q (93 :: 32 :: c) 2]
      rfl
    have hr2 : indexRune c 93 = -1 := indexRune_not_mem _ _ h93
    simp only [sdLoop]
    rw [if_neg (by omega : ¬ ((Q.length : Int) < 0))]
    rw [if_neg (show ¬ ((Q.length : Int) = ((Q ++ 93 :: 32 :: c).length : Int) - 1) from by
      rw [hlen]; push_cast; omega)]
    rw [if_pos (show (0 : Int) < (Q.length : Int) ∧
        (Q.length : Int) < ((Q ++ 93 :: 32 :: c).length : Int) from by
      constructor
      · omega
      · rw [hlen]; push_cast; omega)]
    rw [hdrop, hl]
    rw [if_neg (by omega : ¬ ((-1 : Int) > 0))]
    rw [htake, hdrop2, hr2]
    rw [if_pos (by omega : (-1 : Int) < 0)]
  | cons i rest ih =>
    intro Q c dat fuel hQ hbs h91 h93 hfuel
    obtain ⟨f1, rfl⟩ : ∃ f1, fuel = f1 + 1 := ⟨fuel - 1, by omega⟩
    simp only [sdConcat, sdBlock, List.cons_append, List.append_assoc, List.nil_append]
    have hQlen : 1 ≤ Q.length := by
      rcases Q with _ | _
      · exact absurd rfl hQ
      · simp
    have hiwf := hbs i (List.mem_cons_self i rest)
    have hrwf : ∀ j ∈ rest, ∀ b ∈ j, b ≠ 92 ∧ b ≠ 93 :=
      fun j hj => hbs j (List.mem_cons_of_mem i hj)
    set X : Bytes := sdConcat rest ++ 32 :: c with hX
    have hlen : (Q ++ 93 :: 91 :: (i ++ 93 :: X)).length =
        Q.length + i.length + 3 + X.length := by
      simp
      omega
    have hXlen : 1 ≤ X.length := by
      rw [hX]
      simp
      omega
    have hdrop : sliceFrom (Q ++ 93 :: 91 :: (i ++ 93 :: X)) ((Q.length : Int)) =
        93 :: 91 :: (i ++ 93 :: X) := by
      unfold sliceFrom
      rw [Int.toNat_ofNat, List.drop_left]
    have hl : indexRune (93 :: 91 :: (i ++ 93 :: X)) 91 = 1 := by
      have h := indexRune_append_first [93] (i ++ 93 :: X) 91 (by omega) (by decide) (by decide)
      simpa using h
    have hdrop1 : sliceFrom (Q ++ 93 :: 91 :: (i ++ 93 :: X)) ((Q.length : Int) + 1) =
        91 :: (i ++ 93 :: X) := by
      unfold sliceFrom
      rw [show ((Q.length : Int) + 1).toNat = Q.length + 1 from by omega]
      rw [drop_append_len Q (93 :: 91 :: (i ++ 93 :: X)) 1]
      rfl
    have hr2 : indexRune (91 :: (i ++ 93 :: X)) 93 = ((i.length + 1 : Nat) : Int) := by
      have h := indexRune_append_first (91 :: i) X 93 (by omega)
        (by
          intro hm
          rcases List.mem_cons.mp hm with h | h
          · omega
          · exact (hiwf 93 h).2 rfl)
        (by
          intro hm
          rcases List.mem_cons.mp hm with h | h
          · omega
          · exact (hiwf 92 h).1 rfl)
      simpa using h
    simp only [sdLoop]
    rw [if_neg (by omega : ¬ ((Q.length : Int) < 0))]
    rw [if_neg (show ¬ ((Q.length : Int) =
        ((Q ++ 93 :: 91 :: (i ++ 93 :: X)).length : Int) - 1) from by
      rw [hlen]; push_cast; omega)]
    rw [if_pos (show (0 : Int) < (Q.length : Int) ∧ (Q.length : Int) <
        ((Q ++ 93 :: 91 :: (i ++ 93 :: X)).length : Int) from by
      constructor
      · omega
      · rw [hlen]; push_cast; omega)]
    rw [hdrop, hl]
    rw [if_pos (by omega : (1 : Int) > 0)]
    rw [hdrop1, hr2]
    rw [if_pos (by omega : ((i.length + 1 : Nat) : Int) ≥ 0)]
    have hs' : Q ++ 93 :: 91 :: (i ++ 93 :: X) =
        (Q ++ 93 :: 91 :: i) ++ 93 :: X := by
      simp [List.append_assoc]
    have hr' : ((Q.length : Int) + ((i.length + 1 : Nat) : Int) + 1) =
        (((Q ++ 93 :: 91 :: i).length : Nat) : Int) := by
      simp
      push_cast
      omega
    rw [hs', hr']
    rw [hX]
    rw [ih (Q ++ 93 :: 91 :: i) c dat f1 (by simp) hrwf h91 h93 (by
      simp only [List.length_cons] at hfuel ⊢
      omega)]
    simp [List.append_assoc]

/-- HasPrefix is a take-equality. -/
theorem startsWith_eq_take (s p : Bytes) : startsWith s p = true ↔ s.take p.length = p := by
  induction p generalizing s with
  | nil => simp [startsWith, startsWithAux]
  | cons b t ih =>
    rcases s with _ | ⟨a, s'⟩
    · simp [startsWith, startsWithAux]
    · have h := ih s'
      simp only [startsWith] at h
      simp [startsWith, startsWithAux, List.take_succ_cons, List.cons.injEq, h]

/-- The structured-data stage on rendered blocks followed by a space collects all
the blocks and also eats the separating space. -/
theorem sdStage_blocks (bs : List Bytes) (c : Bytes) (fuel : Nat)
    (hne : bs ≠ []) (hwf : ∀ i ∈ bs, ∀ b ∈ i, b ≠ 92 ∧ b ≠ 93)
    (h91 : (91 : Nat) ∉ c) (h93 : (93 : Nat) ∉ c)
    (hfuel : bs.length + 2 ≤ fuel) :
    sdStage fuel (sdConcat bs ++ 32 :: c) = some (sdConcat bs, c) := by
  rcases bs with _ | ⟨i, rest⟩
  · exact absurd rfl hne
  have hiwf := hwf i (List.mem_cons_self i rest)
  have hrwf : ∀ j ∈ rest, ∀ b ∈ j, b ≠ 92 ∧ b ≠ 93 :=
    fun j hj => hwf j (List.mem_cons_of_mem i hj)
  have hshape : sdConcat (i :: rest) ++ 32 :: c =
      (91 :: i) ++ 93 :: (sdConcat rest ++ 32 :: c) := by
    simp [sdConcat, sdBlock, List.append_assoc]
  have hsw1 : startsWith (sdConcat (i :: rest) ++ 32 :: c) (bstr "- ") = false := by
    rw [hshape, show (bstr "- ") = [45, 32] from by decide, List.cons_append]
    exact startsWith_cons_false _ _ _ _ (by omega)
  have hsw2 : startsWith (sdConcat (i :: rest) ++ 32 :: c) (bstr "[") = true := by
    rw [hshape, show (bstr "[") = [91] from by decide, List.cons_append]
    simp [startsWith, startsWithAux]
  have hidx : indexRune (sdConcat (i :: rest) ++ 32 :: c) 93 =
      (((91 :: i).length : Nat) : Int) := by
    rw [hshape]
    exact indexRune_append_first (91 :: i) _ 93 (by omega)
      (by
        intro hm
        rcases List.mem_cons.mp hm with h | h
        · omega
        · exact (hiwf 93 h).2 rfl)
      (by
        intro hm
        rcases List.mem_cons.mp hm with h | h
        · omega
        · exact (hiwf 92 h).1 rfl)
  simp only [sdStage, hsw1, Bool.false_eq_true, if_false, hsw2, if_true, hidx]
  rw [hshape]
  rw [sdLoop_inv rest (91 :: i) c [] fuel (by simp) hrwf h91 h93 (by
    simp only [List.length_cons] at hfuel ⊢
    omega)]
  simp [sdConcat, sdBlock, List.append_assoc]

/-- The structured-data stage on a rendered nil-value. -/
theorem sdStage_dash (c : Bytes) (fuel : Nat) :
    sdStage fuel ((45 : Nat) :: 32 :: c) = some ([45], c) := by
  have hsw : startsWith ((45 : Nat) :: 32 :: c) (bstr "- ") = true := by
    rw [show (bstr "- ") = [45, 32] from by decide]
    simp [startsWith, startsWithAux]
  simp only [sdStage, hsw, if_true]
  rfl

/-- The structured-data stage leaves input without a leading nil-value or
bracket-and-closer untouched. -/
theorem sdStage_plain (c : Bytes) (fuel : Nat) (hfuel : 1 ≤ fuel)
    (hsw : startsWith c (bstr "- ") = false) (h93 : (93 : Nat) ∉ c) :
    sdStage fuel c = some ([], c) := by
  obtain ⟨f1, rfl⟩ : ∃ f1, fuel = f1 + 1 := ⟨fuel - 1, by omega⟩
  simp only [sdStage, hsw, Bool.false_eq_true, if_false]
  by_cases hbr : startsWith c (bstr "[") = true
  · rw [if_pos hbr]
    rw [indexRune_not_mem _ _ h93]
    simp only [sdLoop]
    rw [if_pos (by omega : (-1 : Int) < 0)]
  · rw [if_neg (by simpa using hbr)]

/-- The content stage without a byte-order mark on content that does not begin
with a space. -/
theorem rest5424_concat (m : GoMessage) (d c : Bytes) (h32 : c.head? ≠ some 32) :
    rest5424 m d c false = .ok { m with data := d, content := c } := by
  have hsw : startsWith c (bstr " ") = false := by
    rcases c with _ | ⟨b, t⟩
    · rfl
    · rw [show (bstr " ") = [32] from by decide]
      exact startsWith_cons_false _ _ _ _ (by simpa using h32)
  simp only [rest5424, hsw, Bool.false_eq_true, if_false, Bool.not_false, if_true]

/-- The rendered form of a version-1 message with nonempty header fields whose
content does not begin with a colon. -/
theorem format_shape (m : GoMessage) (hv : m.version = 1) (hts : m.timestamp.isZero = false)
    (hh : m.hostname ≠ []) (ha : m.application ≠ []) (hp : m.procID ≠ []) (hmi : m.msgID ≠ [])
    (hc : m.content.head? ≠ some 58) :
    m.Format = (60 : Nat) :: (natRepr m.priority ++ 62 :: 49 :: 32 ::
      (m.timestamp.formatRFC3339 ++ 32 :: (m.hostname ++ 32 :: (m.application ++ 32 ::
        (m.procID ++ 32 :: (m.msgID ++
          ((if m.data = [] then [] else 32 :: m.data) ++ 32 :: m.content))))))) := by
  have hcolon : startsWith m.content (bstr ":") = false := by
    rcases hcc : m.content with _ | ⟨b, tl⟩
    · rfl
    · rw [show (bstr ":") = [58] from by decide]
      refine startsWith_cons_false _ _ _ _ ?_
      intro he
      rw [hcc] at hc
      simp [he] at hc
  have hone : intRepr (1 : Int) = [49] := by decide
  simp only [GoMessage.Format, GoMessage.formatParts, hv, hts, Bool.false_eq_true, if_false,
    hone, leadingSpaceIfNotColon, hcolon,
    if_neg (show ¬ ((1 : Int) = 0) from by decide),
    if_neg (show ¬ ((1 : Int) = 0 ∧ m.application ≠ [] ∧ m.procID ≠ []) from
      fun hco => absurd hco.1 (by decide)),
    if_pos hh, if_pos ha, if_pos hp, if_pos hmi,
    show (bstr "<") = [60] from by decide, show (bstr ">") = [62] from by decide]
  by_cases hdata : m.data = []
  · rw [if_pos hdata, if_neg (show ¬ m.data ≠ [] from by simp [hdata])]
    simp [joinSpace, List.append_assoc]
  · rw [if_neg hdata, if_pos hdata]
    simp [joinSpace, List.append_assoc]

theorem sdConcat_len (bs : List Bytes) : bs.length ≤ (sdConcat bs).length := by
  induction bs with
  | nil => simp [sdConcat]
  | cons i r ih =>
    simp only [sdConcat, sdBlock, List.length_cons, List.length_append]
    simp
    omega

theorem sdConcat_mem (bs : List Bytes) (hwf : ∀ i ∈ bs, ∀ b ∈ i, 32 ≤ b ∧ b ≤ 126) :
    ∀ b ∈ sdConcat bs, 32 ≤ b ∧ b ≤ 126 := by
  induction bs with
  | nil =>
    intro b hb
    simp [sdConcat] at hb
  | cons i r ih =>
    intro b hb
    have hiwf := hwf i (List.mem_cons_self i r)
    have hrwf : ∀ j ∈ r, ∀ b ∈ j, 32 ≤ b ∧ b ≤ 126 :=
      fun j hj => hwf j (List.mem_cons_of_mem i hj)
    simp only [sdConcat, sdBlock, List.cons_append, List.mem_cons, List.mem_append,
      List.not_mem_nil, or_false] at hb
    rcases hb with h | (h | h) | h
    · omega
    · exact hiwf b h
    · omega
    · exact ih hrwf b h

/-- parseRFC5424Message on input of the rendered shape. -/
theorem parse5424_shape (m2 : GoMessage) (t : GoTime) (htswf : WFTime t)
    (f1 f2 f3 f4 rest2 d c : Bytes)
    (h1 : FieldWF f1) (h2 : FieldWF f2) (h3 : FieldWF f3) (h4 : FieldWF f4) (fuel : Nat)
    (hsd : sdStage fuel rest2 = some (d, c)) (hc32 : c.head? ≠ some 32) :
    parseRFC5424Message fuel m2 (t.formatRFC3339 ++ 32 ::
        (f1 ++ 32 :: (f2 ++ 32 :: (f3 ++ 32 :: (f4 ++ 32 :: rest2))))) false =
      .ok { m2 with
        timestamp := t, hostname := f1, application := f2, procID := f3,
        msgID := f4, data := d, content := c } := by
  simp only [parseRFC5424Message]
  rw [ts5424_concat m2 t htswf]
  dsimp only
  rw [fields5424_concat _ f1 f2 f3 f4 rest2 h1 h2 h3 h4]
  dsimp only
  rw [hsd]
  dsimp only
  rw [rest5424_concat _ d c hc32]

/-- Rendering then parsing restores a well-formed message apart from the
receiver clock and the socket source, for any sufficient fuel. -/
theorem roundtrip_aux (m : GoMessage) (now : GoTime) (h : WFMessage m) (fuel : Nat)
    (hfuel : m.data.length + 3 ≤ fuel) :
    parseMessage fuel now m.Format = .ok { m with time := now, source := none } := by
  obtain ⟨hfac, hsev, hv, htswf, htsnz, hhw, haw, hpw, hmw, hdw, hcw, hch, hcd⟩ := h
  obtain ⟨hsdec, hfdec, hplt⟩ := priority_decode_facts m.facility hfac m.severity hsev
  have hpri : m.priority = m.facility <<< 3 ||| m.severity := rfl
  have hplt2 : m.priority < 192 := by rw [hpri]; exact hplt
  obtain ⟨hdig, hl1, hl3, hatoi⟩ := natRepr_priority_facts m.priority hplt2
  have hshape := format_shape m hv htsnz hhw.1 haw.1 hpw.1 hmw.1 hch.2
  have hts_mem := formatRFC3339_mem m.timestamp
  have hcon32 : ∀ b ∈ m.content, 32 ≤ b ∧ b ≤ 126 :=
    fun b hb => ⟨(hcw b hb).1, (hcw b hb).2.1⟩
  have hc91 : (91 : Nat) ∉ m.content := fun hm => (hcw 91 hm).2.2.1 rfl
  have hc93 : (93 : Nat) ∉ m.content := fun hm => (hcw 93 hm).2.2.2.2 rfl
  obtain ⟨rest2, hT, hsd, hr2mem⟩ :
      ∃ rest2, (if m.data = [] then [] else 32 :: m.data) ++ 32 :: m.content = 32 :: rest2 ∧
        sdStage fuel rest2 = some (m.data, m.content) ∧
        ∀ b ∈ rest2, 32 ≤ b ∧ b ≤ 126 := by
    rcases hdw with hd | hd | ⟨bs, hne, hdeq, hbs⟩
    · refine ⟨m.content, by rw [if_pos hd]; rfl, ?_, hcon32⟩
      rw [hd]
      exact sdStage_plain m.content fuel (by omega) (hcd hd) hc93
    · refine ⟨45 :: 32 :: m.content, by rw [if_neg (by simp [hd]), hd]; rfl, ?_, ?_⟩
      · rw [hd]
        exact sdStage_dash m.content fuel
      · intro b hb
        rcases List.mem_cons.mp hb with h | h
        · omega
        rcases List.mem_cons.mp h with h | h
        · omega
        · exact hcon32 b h
    · have hdne : m.data ≠ [] := by
        rw [hdeq]
        rcases bs with _ | ⟨j, r⟩
        · exact absurd rfl hne
        · simp [sdConcat, sdBlock]
      refine ⟨m.data ++ 32 :: m.content, by rw [if_neg (by simp [hdne])]; simp, ?_, ?_⟩
      · rw [hdeq]
        refine sdStage_blocks bs m.content fuel hne
          (fun i hi b hb => ⟨(hbs i hi b hb).2.2.1, (hbs i hi b hb).2.2.2⟩) hc91 hc93 ?_
        have h1 := sdConcat_len bs
        have h2 : (sdConcat bs).length = m.data.length := by rw [hdeq]
        omega
      · intro b hb
        rcases List.mem_append.mp hb with h | h
        · rw [hdeq] at h
          exact sdConcat_mem bs (fun i hi b hb => ⟨(hbs i hi b hb).1, (hbs i hi b hb).2.1⟩) b h
        · rcases List.mem_cons.mp h with h | h
          · omega
          · exact hcon32 b h
  have hshape2 : m.Format = (60 : Nat) :: (natRepr m.priority ++ 62 :: 49 :: 32 ::
      (m.timestamp.formatRFC3339 ++ 32 :: (m.hostname ++ 32 :: (m.application ++ 32 ::
        (m.procID ++ 32 :: (m.msgID ++ 32 :: rest2)))))) := by
    rw [hshape, hT]
  have hfw : ∀ (f : Bytes), FieldWF f → ∀ b ∈ f, 32 ≤ b ∧ b ≤ 126 := by
    intro f hf b hb
    have := hf.2.2 b hb
    omega
  have hbytes : ∀ b ∈ m.Format, 32 ≤ b ∧ b ≤ 126 := by
    rw [hshape2]
    intro b hb
    simp only [List.mem_cons, List.mem_append] at hb
    rcases hb with h|h|h|h|h|h|h|h|h|h|h|h|h|h|h|h <;>
      first
        | omega
        | (have hx9 := hdig b h; omega)
        | (have hx9 := hts_mem b h; omega)
        | (have hx9 := hfw _ hhw b h; omega)
        | (have hx9 := hfw _ haw b h; omega)
        | (have hx9 := hfw _ hpw b h; omega)
        | (have hx9 := hfw _ hmw b h; omega)
        | (have hx9 := hr2mem b h; omega)
  have htrim : trimRightNulCrLf m.Format = m.Format :=
    trimRight_id _ (fun b hb => by
      have := hbytes b hb
      simp [isNulCrLf]
      omega)
  have hbom : findBOM m.Format = some (-1) :=
    findBOM_none _ (fun hm => by
      have := hbytes _ hm
      omega)
  have hsw1 : startsWith ((49 : Nat) :: 32 :: (m.timestamp.formatRFC3339 ++ 32 ::
      (m.hostname ++ 32 :: (m.application ++ 32 ::
        (m.procID ++ 32 :: (m.msgID ++ 32 :: rest2)))))) (bstr "1 ") = true := by
    rw [show (bstr "1 ") = [49, 32] from by decide]
    simp [startsWith, startsWithAux]
  simp only [parseMessage, htrim, hbom]
  rw [if_neg (show ¬ ((-1 : Int) ≥ 0) from by omega)]
  rw [if_neg (show ¬ ((-1 : Int) ≥ 0) from by omega)]
  rw [hshape2]
  rw [priorityStage_concat m.priority hplt2]
  dsimp only
  rw [hpri, hsdec, hfdec]
  rw [hsw1]
  rw [if_pos rfl]
  rw [show (decide ((0 : Int) ≤ -1)) = false from rfl]
  rw [show List.drop 2 ((49 : Nat) :: 32 :: (m.timestamp.formatRFC3339 ++ 32 ::
      (m.hostname ++ 32 :: (m.application ++ 32 :: (m.procID ++ 32 ::
        (m.msgID ++ 32 :: rest2)))))) = m.timestamp.formatRFC3339 ++ 32 ::
      (m.hostname ++ 32 :: (m.application ++ 32 :: (m.procID ++ 32 ::
        (m.msgID ++ 32 :: rest2)))) from rfl]
  rw [parse5424_shape _ m.timestamp htswf m.hostname m.application m.procID m.msgID
    rest2 m.data m.content hhw haw hpw hmw fuel hsd hch.1]
  simp [hv]

/-- C5 (amended): parsing the canonical RFC 5424 rendering of a well-formed
message yields the message back, with only the receiver-stamped time and socket
source replaced. -/
theorem parse_format_roundtrip (m : GoMessage) (now : GoTime) (h : WFMessage m) :
    parseMessage m.Format.length now m.Format =
      .ok { m with time := now, source := none } := by
  refine roundtrip_aux m now h _ ?_
  have hshape := format_shape m h.ver_one h.ts_nonzero h.host_wf.1 h.app_wf.1
    h.proc_wf.1 h.msg_wf.1 h.content_head.2
  rw [hshape]
  by_cases hd : m.data = []
  · rw [if_pos hd, hd]
    simp only [List.length_cons, List.length_append, List.length_nil]
    omega
  · rw [if_neg hd]
    simp only [List.length_cons, List.length_append, List.length_nil]
    omega

/-- C5 counterexample: rendering spacedHost ("<34>1 ...Z a b app p m - hi") and
parsing it back shifts every later header field by a word — the hostname comes
back as "a", which is neither the original value nor the tolerated empty/"-"
ambiguity, so the unconditional claim fails. -/
theorem parse_format_counterexample :
    parseMessage 64 t0 spacedHost.Format =
      .ok { spacedHost with
        hostname := bstr "a", application := bstr "b", procID := bstr "app",
        msgID := bstr "p", data := [], content := bstr "m - hi" } ∧
    spacedHost.hostname ≠ bstr "a" := by
  constructor
  · rfl
  · decide

/-- Witness for C5 at a concrete well-formed message. -/
theorem parse_format_roundtrip_witness :
    parseMessage c5Witness.Format.length t0 c5Witness.Format =
      .ok { c5Witness with time := t0, source := none } :=
  parse_format_roundtrip c5Witness t0
    ⟨by decide, by decide, rfl,
     ⟨by decide, by decide, by decide, by decide, by decide, by decide, by decide,
      by decide, by decide, by decide, by decide, by decide, by decide⟩,
     by decide, ⟨by decide, by decide, by decide⟩, ⟨by decide, by decide, by decide⟩,
     ⟨by decide, by decide, by decide⟩, ⟨by decide, by decide, by decide⟩,
     Or.inr (Or.inr ⟨[[97]], by decide, by decide, by decide⟩),
     by decide, ⟨by decide, by decide⟩, fun hc => absurd hc (by decide)⟩

end Syslog
